import Mathlib

/-!
# Verification of the MarineSustain Flask dashboard (`app.py`)

Shallow embedding of the request-time data pipeline of `app.py`:
the in-memory dataset (`df`), the filtered dashboard query
(`api_dashboard_populasi`), the ecological summary cards
(`api_card_infoekologi`), the GeoJSON province-key detection
(`detect_prov_property_key`) with the map-enrichment step of
`api_peta_kepatuhan`, and the prediction endpoint
(`predict_overfishing`).

Modelling conventions:
* pandas numeric cells are modelled as rationals (`Rat`); a pandas `NaN`
  arising from an aggregation over an empty selection, or from a missing
  cell, is modelled as `none` in an `Option` type.  Python truthiness of
  such a value (`if pop_prev:`) is modelled by `pyTruthy` (`NaN` is
  truthy in Python).
* the CSV schema is modelled as fixed: every row carries the columns the
  endpoints use; the `Status` cell may be missing (`Option String`).
* GeoJSON feature property values are modelled as strings (the code
  passes every extracted value through `str(...)`, which is the identity
  on strings); a feature is its insertion-ordered property list, the
  geometry is never touched by the code under verification.
* Python `dict` is modelled as an insertion-ordered association list
  with distinct keys: assignment to an existing key keeps its position,
  assignment to a fresh key appends.
-/

namespace MarineSustain

/-! ## Python string helpers -/

/-- Python `str.upper()` (ASCII case mapping, as used on province names). -/
def pyUpper (s : String) : String := String.mk (s.data.map Char.toUpper)

/-- Python `str.strip()` with no argument: drop leading and trailing whitespace. -/
def pyStrip (s : String) : String :=
  String.mk (((s.data.dropWhile Char.isWhitespace).reverse.dropWhile
    Char.isWhitespace).reverse)

/-- Python truthiness of a possibly-`NaN` number: `NaN` is truthy, `0` is falsy. -/
def pyTruthy : Option Rat → Bool
  | none => true
  | some x => decide (x ≠ 0)

/-- Python `int(s)` on a string: optional surrounding whitespace, optional
sign, then at least one digit.  Returns `none` when `int(...)` would raise. -/
def pyIntOfString (s : String) : Option Int :=
  let t := pyStrip s
  let core : Option (Bool × List Char) :=
    match t.data with
    | '-' :: rest => some (true, rest)
    | '+' :: rest => some (false, rest)
    | cs => some (false, cs)
  match core with
  | none => none
  | some (neg, ds) =>
    if ds.isEmpty || ds.any (fun c => !c.isDigit) then none
    else
      let n : Nat := ds.foldl (fun a c => a * 10 + (c.toNat - '0'.toNat)) 0
      some (if neg then -(n : Int) else (n : Int))

/-! ## The dataset -/

/-- One row of the classification CSV (`df`), restricted to the columns the
endpoints under verification read.  `status` is the `Status` cell, `none`
modelling a missing (`NaN`) cell. -/
structure Row where
  tahun : Int
  provinsi : String
  kelompokIkan : String
  catchTon : Rat
  tpC : Rat
  tpE : Rat
  status : Option String
  deriving DecidableEq, Repr

/-- A dataset is the row list of the loaded dataframe, in file order. -/
abbrev Dataset := List Row

/-! ## `GET /api/dashboard-populasi` -/

/-- One element of the JSON array answered by `/api/dashboard-populasi`. -/
structure PopOut where
  tahun : Int
  kelompok_ikan : String
  provinsi : String
  populasi : Rat
  deriving DecidableEq, Repr

/-- Row-wise `Populasi` column: `df_dashboard[["TP_C", "TP_E"]].mean(axis=1)`. -/
def popRow (r : Row) : Rat := (r.tpC + r.tpE) / 2

/-- Projection of a row to the response record of `/api/dashboard-populasi`. -/
def projPop (r : Row) : PopOut :=
  { tahun := r.tahun, kelompok_ikan := r.kelompokIkan
    provinsi := r.provinsi, populasi := popRow r }

/-- Is a query parameter supplied, in the sense of
`if tahun and tahun.strip():` — present, non-empty, non-blank? -/
def suppliedParam : Option String → Bool
  | none => false
  | some s => !(s == "") && !(pyStrip s == "")

/-- The `tahun` filter step of `api_dashboard_populasi` / `api_peta_kepatuhan`:
`int(tahun)` parse failure is swallowed (`except Exception: pass`). -/
def applyTahunFilter (d : Dataset) (tahun : Option String) : Dataset :=
  match tahun with
  | none => d
  | some s =>
    if !(s == "") && !(pyStrip s == "") then
      match pyIntOfString s with
      | some n => d.filter (fun r => r.tahun == n)
      | none => d
    else d

/-- The `provinsi` filter step (`df["Provinsi"] == provinsi.upper()`). -/
def applyProvinsiFilter (d : Dataset) (provinsi : Option String) : Dataset :=
  match provinsi with
  | none => d
  | some s =>
    if !(s == "") && !(pyStrip s == "") then d.filter (fun r => r.provinsi == pyUpper s)
    else d

/-- The `ikan` filter step (`df["Kelompok Ikan"] == ikan`). -/
def applyIkanFilter (d : Dataset) (ikan : Option String) : Dataset :=
  match ikan with
  | none => d
  | some s =>
    if !(s == "") && !(pyStrip s == "") then d.filter (fun r => r.kelompokIkan == s)
    else d

/-- `GET /api/dashboard-populasi`: sequential optional filters, then the
projection to `{tahun, kelompok_ikan, provinsi, populasi}`. -/
def api_dashboard_populasi (df : Dataset) (tahun provinsi ikan : Option String) :
    List PopOut :=
  if df.isEmpty then []
  else
    (applyIkanFilter (applyProvinsiFilter (applyTahunFilter df tahun) provinsi) ikan).map
      projPop

/-- The conjunction (logical AND) of the three optional filters of
`/api/dashboard-populasi`, as a single row predicate.  A filter that is not
supplied imposes no restriction on its dimension. -/
def filterPred (tahun provinsi ikan : Option String) (r : Row) : Bool :=
  (!(suppliedParam tahun) ||
      (match pyIntOfString (tahun.getD "") with
       | some n => r.tahun == n
       | none => true)) &&
  (!(suppliedParam provinsi) || r.provinsi == pyUpper (provinsi.getD "")) &&
  (!(suppliedParam ikan) || r.kelompokIkan == (ikan.getD ""))

lemma applyTahunFilter_eq_filter (d : Dataset) (t : Option String) :
    applyTahunFilter d t =
      d.filter (fun r =>
        !(suppliedParam t) ||
          (match pyIntOfString (t.getD "") with
           | some n => r.tahun == n
           | none => true)) := by
  match t with
  | none => simp [applyTahunFilter, suppliedParam]
  | some s =>
    simp only [applyTahunFilter, suppliedParam, Option.getD_some]
    by_cases hs : (!(s == "") && !(pyStrip s == "")) = true
    · rw [if_pos hs, hs]
      match hp : pyIntOfString s with
      | some n => simp
      | none => simp
    · rw [if_neg hs]
      rw [Bool.not_eq_true] at hs
      rw [hs]
      simp

lemma applyProvinsiFilter_eq_filter (d : Dataset) (p : Option String) :
    applyProvinsiFilter d p =
      d.filter (fun r =>
        !(suppliedParam p) || r.provinsi == pyUpper (p.getD "")) := by
  match p with
  | none => simp [applyProvinsiFilter, suppliedParam]
  | some s =>
    simp only [applyProvinsiFilter, suppliedParam, Option.getD_some]
    by_cases hs : (!(s == "") && !(pyStrip s == "")) = true
    · rw [if_pos hs, hs]; simp
    · rw [if_neg hs]
      rw [Bool.not_eq_true] at hs
      rw [hs]
      simp

lemma applyIkanFilter_eq_filter (d : Dataset) (i : Option String) :
    applyIkanFilter d i =
      d.filter (fun r =>
        !(suppliedParam i) || r.kelompokIkan == (i.getD "")) := by
  match i with
  | none => simp [applyIkanFilter, suppliedParam]
  | some s =>
    simp only [applyIkanFilter, suppliedParam, Option.getD_some]
    by_cases hs : (!(s == "") && !(pyStrip s == "")) = true
    · rw [if_pos hs, hs]; simp
    · rw [if_neg hs]
      rw [Bool.not_eq_true] at hs
      rw [hs]
      simp

/-- **C1.**  For every combination of optional filters,
`/api/dashboard-populasi` returns exactly the rows of the dataset matching
all supplied filters (logical AND), each projected to
`{tahun, kelompok_ikan, provinsi, populasi}`; with no filters supplied it
returns exactly the unfiltered dataset, projected. -/
theorem dashboard_populasi_filter_correct (df : Dataset)
    (tahun provinsi ikan : Option String)
    (_hval : suppliedParam tahun = true → (pyIntOfString (tahun.getD "")).isSome) :
    api_dashboard_populasi df tahun provinsi ikan
      = (df.filter (filterPred tahun provinsi ikan)).map projPop
    ∧ api_dashboard_populasi df none none none = df.map projPop := by
  constructor
  · unfold api_dashboard_populasi
    by_cases hdf : df.isEmpty
    · rw [if_pos hdf]
      rw [List.isEmpty_iff] at hdf
      subst hdf
      simp
    · rw [if_neg hdf]
      rw [applyTahunFilter_eq_filter, applyProvinsiFilter_eq_filter,
        applyIkanFilter_eq_filter, List.filter_filter, List.filter_filter]
      congr 1
      apply List.filter_congr
      intro r _
      simp only [filterPred]
      cases h1 : !(suppliedParam tahun) ||
          (match pyIntOfString (tahun.getD "") with
           | some n => r.tahun == n
           | none => true) <;>
        cases h2 : (!(suppliedParam provinsi) ||
            r.provinsi == pyUpper (provinsi.getD "")) <;>
        cases h3 : (!(suppliedParam ikan) || r.kelompokIkan == (ikan.getD "")) <;>
        simp [h1, h2, h3]
  · unfold api_dashboard_populasi
    by_cases hdf : df.isEmpty
    · rw [if_pos hdf]
      rw [List.isEmpty_iff] at hdf
      subst hdf
      simp
    · rw [if_neg hdf]
      simp [applyTahunFilter, applyProvinsiFilter, applyIkanFilter]

/-- A small concrete dataset for exercising `dashboard_populasi_filter_correct`. -/
def dfC1 : Dataset :=
  [ { tahun := 2020, provinsi := "ACEH", kelompokIkan := "Tuna",
      catchTon := 100, tpC := 10, tpE := 20, status := some "OVERFISHING" },
    { tahun := 2019, provinsi := "BALI", kelompokIkan := "Sarden",
      catchTon := 50, tpC := 4, tpE := 6, status := some "UNDERFISHING" } ]

/-- Witness for `dashboard_populasi_filter_correct` at a concrete dataset and
filter combination, discharging the validity hypothesis. -/
theorem dashboard_populasi_filter_correct_witness :
    (suppliedParam (some "2020") = true →
      (pyIntOfString ((some "2020" : Option String).getD "")).isSome) ∧
    (api_dashboard_populasi dfC1 (some "2020") (some "aceh") none
        = (dfC1.filter (filterPred (some "2020") (some "aceh") none)).map projPop
      ∧ api_dashboard_populasi dfC1 none none none = dfC1.map projPop) :=
  ⟨by decide,
   dashboard_populasi_filter_correct dfC1 (some "2020") (some "aceh") none
     (by decide)⟩

/-! ## `GET /api/card-infoekologi` -/

/-- Helper for `firstUnique`: keep elements not yet seen. -/
def firstUniqueAux (seen : List String) : List String → List String
  | [] => []
  | k :: ks =>
    if seen.contains k then firstUniqueAux seen ks
    else k :: firstUniqueAux (k :: seen) ks

/-- `pandas.Series.unique()`: deduplication keeping the first occurrence of
each value, in first-seen order. -/
def firstUnique (l : List String) : List String := firstUniqueAux [] l

/-- `Series.mean()`: `NaN` (modelled as `none`) on an empty selection. -/
def pmean (l : List Rat) : Option Rat :=
  if l.isEmpty then none else some (l.sum / l.length)

/-- The per-group population estimate `(TP_C.mean() + TP_E.mean()) / 2` over a
row selection, with `NaN` propagation from empty selections. -/
def popEstimate (rows : List Row) : Option Rat :=
  match pmean (rows.map (·.tpC)), pmean (rows.map (·.tpE)) with
  | some a, some b => some ((a + b) / 2)
  | _, _ => none

/-- Round half to even at integer precision (the rounding mode of Python's
`round`, modelled exactly on rationals). -/
def rndHalfEven (q : Rat) : Int :=
  let f : Int := ⌊q⌋
  let r : Rat := q - f
  if r < 1/2 then f
  else if r > 1/2 then f + 1
  else if f % 2 = 0 then f else f + 1

/-- Python `round(x, 2)`, with `round(NaN, 2) = NaN`. -/
def pyRound2 : Option Rat → Option Rat
  | none => none
  | some q => some ((rndHalfEven (q * 100) : Rat) / 100)

lemma rndHalfEven_zero : rndHalfEven 0 = 0 := by
  unfold rndHalfEven
  norm_num

lemma pyRound2_zero : pyRound2 (some 0) = some 0 := by
  show some (((rndHalfEven ((0 : Rat) * 100) : Int) : Rat) / 100) = some 0
  rw [zero_mul, rndHalfEven_zero]
  norm_num

/-- The trend expression
`((pop_now - pop_prev) / pop_prev) * 100 if pop_prev else 0`:
Python truthiness of `pop_prev` (`NaN` is truthy), `NaN` propagation through
the arithmetic. -/
def trendOf (popNow popPrev : Option Rat) : Option Rat :=
  if pyTruthy popPrev then
    match popNow, popPrev with
    | some n, some p => some ((n - p) / p * 100)
    | _, _ => none
  else some 0

/-- One element of the JSON array answered by `/api/card-infoekologi`. -/
structure Card where
  nama : String
  populasi : Option Rat
  tren : Option Rat
  status : Option String
  deriving DecidableEq, Repr

/-- One iteration of the loop of `api_card_infoekologi`, for fish group
`ikan`.  `status` is `...["Status"].values[0]` — the `Status` cell of the
first matching current-year row; in the endpoint `ikan` is always drawn from
`dfLatest`, so the selection is never empty. -/
def cardFor (dfLatest dfPrev : Dataset) (ikan : String) : Card :=
  let nowRows := dfLatest.filter (fun r => r.kelompokIkan == ikan)
  let prevRows := dfPrev.filter (fun r => r.kelompokIkan == ikan)
  let popNow := popEstimate nowRows
  let popPrev := popEstimate prevRows
  { nama := ikan
    populasi := pyRound2 popNow
    tren := pyRound2 (trendOf popNow popPrev)
    status := nowRows.head?.bind Row.status }

/-- `GET /api/card-infoekologi`: cards for the first five distinct fish
groups of the most recent year. -/
def api_card_infoekologi (df : Dataset) : List Card :=
  match (df.map (·.tahun)).max? with
  | none => []
  | some latest =>
    let dfLatest := df.filter (fun r => r.tahun == latest)
    let dfPrev := df.filter (fun r => r.tahun == latest - 1)
    ((firstUnique (dfLatest.map (·.kelompokIkan))).take 5).map
      (cardFor dfLatest dfPrev)

lemma mem_of_mem_firstUniqueAux (l : List String) :
    ∀ (seen : List String), ∀ x ∈ firstUniqueAux seen l, x ∈ l := by
  induction l with
  | nil => intro seen x hx; simp [firstUniqueAux] at hx
  | cons k ks ih =>
    intro seen x hx
    rw [firstUniqueAux] at hx
    by_cases hs : seen.contains k
    · rw [if_pos hs] at hx
      exact List.mem_cons_of_mem _ (ih seen x hx)
    · rw [if_neg hs] at hx
      rcases List.mem_cons.mp hx with h | h
      · exact h ▸ List.mem_cons_self _ _
      · exact List.mem_cons_of_mem _ (ih _ x h)

lemma mem_of_mem_firstUnique (l : List String) : ∀ x ∈ firstUnique l, x ∈ l :=
  mem_of_mem_firstUniqueAux l []

/-- The trend rule actually implemented by `cardFor`, in terms of the
previous-year and current-year population estimates. -/
lemma cardFor_tren_eq (L P : Dataset) (i : String) :
    (cardFor L P i).tren =
      match popEstimate (P.filter (fun r => r.kelompokIkan == i)) with
      | none => none
      | some p =>
        if p = 0 then some 0
        else
          match popEstimate (L.filter (fun r => r.kelompokIkan == i)) with
          | some n => pyRound2 (some ((n - p) / p * 100))
          | none => none := by
  show pyRound2 (trendOf _ _) = _
  generalize popEstimate (P.filter (fun r => r.kelompokIkan == i)) = pp
  generalize popEstimate (L.filter (fun r => r.kelompokIkan == i)) = pn
  match pp with
  | none =>
    simp only [trendOf, pyTruthy]
    match pn with
    | none => simp [pyRound2]
    | some n => simp [pyRound2]
  | some p =>
    by_cases hp : p = 0
    · subst hp
      have ht : trendOf pn (some 0) = some 0 := by simp [trendOf, pyTruthy]
      rw [ht, pyRound2_zero]
      simp
    · simp only [trendOf, pyTruthy, decide_eq_true_eq, if_pos hp]
      rw [if_neg hp]
      match pn with
      | none => simp [pyRound2]
      | some n => simp

/-- A dataset whose single (latest-year) group has no previous-year rows. -/
def dfC2 : Dataset :=
  [ { tahun := 2020, provinsi := "ACEH", kelompokIkan := "Tuna",
      catchTon := 100, tpC := 10, tpE := 10, status := some "OVERFISHING" } ]

/-- **C2, counterexample.**  With no previous-year rows for the group, the
previous population estimate is `NaN` (truthy in Python), so the computed
trend is `NaN` — not `0` as the claim states. -/
theorem card_tren_nan_counterexample :
    (api_card_infoekologi dfC2).map Card.tren = [none]
    ∧ (none : Option Rat) ≠ some 0 := by decide

/-- **C2, amended.**  In the ecological summary cards, the percent trend is
`round₂((current − previous) / previous × 100)` whenever the previous-year
estimate is a nonzero number; it is `0` when the previous-year estimate
equals `0`; and when there are no previous-year rows for the group (the
previous estimate is `NaN`) the trend is `NaN`, not `0`. -/
theorem card_tren_rule (df : Dataset) (c : Card)
    (hc : c ∈ api_card_infoekologi df) :
    ∃ latest, (df.map (·.tahun)).max? = some latest ∧
      c.tren =
        (match popEstimate ((df.filter (fun r => r.tahun == latest - 1)).filter
            (fun r => r.kelompokIkan == c.nama)) with
         | none => none
         | some p =>
           if p = 0 then some 0
           else
             match popEstimate ((df.filter (fun r => r.tahun == latest)).filter
                 (fun r => r.kelompokIkan == c.nama)) with
             | some n => pyRound2 (some ((n - p) / p * 100))
             | none => none) := by
  unfold api_card_infoekologi at hc
  match hmax : (df.map (·.tahun)).max? with
  | none => rw [hmax] at hc; simp at hc
  | some latest =>
    rw [hmax] at hc
    simp only at hc
    rcases List.mem_map.mp hc with ⟨i, _hi, hci⟩
    refine ⟨latest, hmax, ?_⟩
    have hnama : c.nama = i := by rw [← hci]; rfl
    rw [hnama, ← hci]
    exact cardFor_tren_eq _ _ i

/-- A two-year dataset exercising the nondegenerate branch of
`card_tren_rule`. -/
def dfC2b : Dataset :=
  [ { tahun := 2020, provinsi := "ACEH", kelompokIkan := "Tuna",
      catchTon := 100, tpC := 12, tpE := 18, status := some "OVERFISHING" },
    { tahun := 2019, provinsi := "ACEH", kelompokIkan := "Tuna",
      catchTon := 100, tpC := 10, tpE := 10, status := some "UNDERFISHING" } ]

/-- The card produced for group `"Tuna"` of `dfC2b` by the endpoint. -/
def cardC2b : Card :=
  cardFor (dfC2b.filter (fun r => r.tahun == 2020))
    (dfC2b.filter (fun r => r.tahun == 2020 - 1)) "Tuna"

lemma cardC2b_mem : cardC2b ∈ api_card_infoekologi dfC2b := by
  unfold api_card_infoekologi
  rw [show (dfC2b.map (·.tahun)).max? = some 2020 from by decide]
  show cardC2b ∈ ((firstUnique ((dfC2b.filter
    (fun r => r.tahun == 2020)).map (·.kelompokIkan))).take 5).map _
  rw [show (firstUnique ((dfC2b.filter
    (fun r => r.tahun == 2020)).map (·.kelompokIkan))).take 5 = ["Tuna"] from by decide]
  exact List.mem_singleton.mpr rfl

/-- Witness for `card_tren_rule` at a concrete dataset and card. -/
theorem card_tren_rule_witness :
    (cardC2b ∈ api_card_infoekologi dfC2b) ∧
    (∃ latest, (dfC2b.map (·.tahun)).max? = some latest ∧
      cardC2b.tren =
        (match popEstimate ((dfC2b.filter (fun r => r.tahun == latest - 1)).filter
            (fun r => r.kelompokIkan == cardC2b.nama)) with
         | none => none
         | some p =>
           if p = 0 then some 0
           else
             match popEstimate ((dfC2b.filter (fun r => r.tahun == latest)).filter
                 (fun r => r.kelompokIkan == cardC2b.nama)) with
             | some n => pyRound2 (some ((n - p) / p * 100))
             | none => none)) :=
  ⟨cardC2b_mem, card_tren_rule dfC2b cardC2b cardC2b_mem⟩

/-- A dataset whose single current-year row has a missing `Status` cell. -/
def dfC3 : Dataset :=
  [ { tahun := 2020, provinsi := "ACEH", kelompokIkan := "Tuna",
      catchTon := 100, tpC := 10, tpE := 10, status := none } ]

/-- **C3, counterexample.**  When no matching current-year row carries a
status, the card's status is the missing value (`NaN`) of the first matching
row — the string `"Tidak Ada Data"` is never produced. -/
theorem card_status_counterexample :
    (api_card_infoekologi dfC3).map Card.status = [none]
    ∧ (none : Option String) ≠ some "Tidak Ada Data" := by decide

/-- **C3, amended.**  Each entry's status is the `Status` cell of the first
matching current-year row (missing when that cell is missing); there is no
`"Tidak Ada Data"` fallback. -/
theorem card_status_rule (df : Dataset) (c : Card)
    (hc : c ∈ api_card_infoekologi df) :
    ∃ latest r, (df.map (·.tahun)).max? = some latest ∧
      ((df.filter (fun r => r.tahun == latest)).filter
          (fun r => r.kelompokIkan == c.nama)).head? = some r ∧
      c.status = r.status := by
  unfold api_card_infoekologi at hc
  match hmax : (df.map (·.tahun)).max? with
  | none => rw [hmax] at hc; simp at hc
  | some latest =>
    rw [hmax] at hc
    simp only at hc
    rcases List.mem_map.mp hc with ⟨i, hi, hci⟩
    have hil : i ∈ (df.filter (fun r => r.tahun == latest)).map (·.kelompokIkan) :=
      mem_of_mem_firstUnique _ i (List.mem_of_mem_take hi)
    rcases List.mem_map.mp hil with ⟨r0, hr0, hr0i⟩
    have hmem : r0 ∈ (df.filter (fun r => r.tahun == latest)).filter
        (fun r => r.kelompokIkan == i) :=
      List.mem_filter.mpr ⟨hr0, by simp [hr0i]⟩
    match hl : (df.filter (fun r => r.tahun == latest)).filter
        (fun r => r.kelompokIkan == i) with
    | [] => rw [hl] at hmem; simp at hmem
    | r :: rest =>
      have hnama : c.nama = i := by rw [← hci]; rfl
      refine ⟨latest, r, hmax, ?_, ?_⟩
      · rw [hnama, hl]; rfl
      · have : c.status = ((r :: rest : List Row).head?).bind Row.status := by
          rw [← hci]
          show ((df.filter (fun r => r.tahun == latest)).filter
            (fun r => r.kelompokIkan == i)).head?.bind Row.status = _
          rw [hl]
        simpa using this

/-- A dataset with two matching current-year rows carrying different
statuses: the first one wins. -/
def dfC3b : Dataset :=
  [ { tahun := 2020, provinsi := "ACEH", kelompokIkan := "Tuna",
      catchTon := 100, tpC := 10, tpE := 10, status := some "UNDERFISHING" },
    { tahun := 2020, provinsi := "BALI", kelompokIkan := "Tuna",
      catchTon := 100, tpC := 2, tpE := 2, status := some "OVERFISHING" } ]

/-- The card produced for group `"Tuna"` of `dfC3b` by the endpoint. -/
def cardC3b : Card :=
  cardFor (dfC3b.filter (fun r => r.tahun == 2020))
    (dfC3b.filter (fun r => r.tahun == 2020 - 1)) "Tuna"

lemma cardC3b_mem : cardC3b ∈ api_card_infoekologi dfC3b := by
  unfold api_card_infoekologi
  rw [show (dfC3b.map (·.tahun)).max? = some 2020 from by decide]
  show cardC3b ∈ ((firstUnique ((dfC3b.filter
    (fun r => r.tahun == 2020)).map (·.kelompokIkan))).take 5).map _
  rw [show (firstUnique ((dfC3b.filter
    (fun r => r.tahun == 2020)).map (·.kelompokIkan))).take 5 = ["Tuna"] from by decide]
  exact List.mem_singleton.mpr rfl

/-- Witness for `card_status_rule` at a concrete dataset and card. -/
theorem card_status_rule_witness :
    (cardC3b ∈ api_card_infoekologi dfC3b) ∧
    (∃ latest r, (dfC3b.map (·.tahun)).max? = some latest ∧
      ((dfC3b.filter (fun r => r.tahun == latest)).filter
          (fun r => r.kelompokIkan == cardC3b.nama)).head? = some r ∧
      cardC3b.status = r.status) :=
  ⟨cardC3b_mem, card_status_rule dfC3b cardC3b cardC3b_mem⟩

/-! ## GeoJSON boundary features and `detect_prov_property_key` -/

/-- A GeoJSON boundary feature, modelled as its insertion-ordered property
list (`feature["properties"]`); values are modelled as strings and the
geometry is omitted (never read or written by the code under verification). -/
abbrev Feature := List (String × String)

/-- `props.get(k)` on the ordered-dict model. -/
def getProp (ps : Feature) (k : String) : Option String :=
  (ps.find? (fun p => p.1 == k)).map (·.2)

/-- `props[k] = v` on the ordered-dict model: update in place keeps the key's
position, a fresh key is appended. -/
def setProp (ps : Feature) (k v : String) : Feature :=
  if ps.any (fun p => p.1 == k) then
    ps.map (fun p => if p.1 == k then (k, v) else p)
  else ps ++ [(k, v)]

/-- Python `str.lower()` (ASCII case mapping). -/
def pyLower (s : String) : String := String.mk (s.data.map Char.toLower)

/-- Python's substring test `sub in hay`. -/
def strContains (hay sub : String) : Bool :=
  hay.data.tails.any (fun t => sub.data.isPrefixOf t)

/-- `any(token in k_low for token in ("prov", "provinsi", "name", "nama"))`. -/
def isTokenKey (k : String) : Bool :=
  ["prov", "provinsi", "name", "nama"].any (fun t => strContains (pyLower k) t)

/-- `candidates[k] = candidates.get(k, 0) + 1` on the ordered-dict model. -/
def bump (cs : List (String × Nat)) (k : String) : List (String × Nat) :=
  if cs.any (fun p => p.1 == k) then
    cs.map (fun p => if p.1 == k then (p.1, p.2 + 1) else p)
  else cs ++ [(k, 1)]

/-- The candidate tally built by `detect_prov_property_key`: feature by
feature, key by key, in insertion (= Python dict iteration) order. -/
def candidatesOf (feats : List Feature) : List (String × Nat) :=
  feats.foldl (fun cs f =>
    f.foldl (fun cs p => if isTokenKey p.1 then bump cs p.1 else cs) cs) []

/-- `max(candidates, key=candidates.get)`: the first entry of maximal count
(Python's `max` keeps the earlier element on ties). -/
def pickMax : List (String × Nat) → Option (String × Nat)
  | [] => none
  | c :: cs => some (cs.foldl (fun b p => if p.2 > b.2 then p else b) c)

/-- `detect_prov_property_key(features)`. -/
def detect_prov_property_key (feats : List Feature) : Option String :=
  (pickMax (candidatesOf feats)).map (·.1)

/-- Modelled from the spec: the per-feature province-name-location procedure
the specification describes for the map renderer — consult a priority-ordered
list of known key variants and, only if none of those keys is present, fall
back to the first string-valued property of the feature.  This procedure is
absent from the code (which is the subject of claim C4); under the
string-valued property model the first string-valued property is the first
property. -/
def specLocateNameKey (prio : List String) (f : Feature) : Option String :=
  match prio.find? (fun k => (getProp f k).isSome) with
  | some k => some k
  | none => f.head?.map (·.1)

/-- A boundary feature whose only property key matches no known
province-name variant but has a string value. -/
def featC4 : Feature := [("label", "ACEH")]

/-- **C4, counterexample.**  For a feature with no known name-key variant,
the code detects no key at all and falls back to the fixed key `"Provinsi"`
(which the feature lacks, so its extracted name is empty) — it never falls
back to the first string-valued property, while the claimed procedure would
select `"label"`. -/
theorem detect_key_counterexample :
    detect_prov_property_key [featC4] = none ∧
    (detect_prov_property_key [featC4]).getD "Provinsi" = "Provinsi" ∧
    getProp featC4 "Provinsi" = none ∧
    specLocateNameKey
      ["Provinsi", "provinsi", "PROVINSI", "NAME_1", "name", "NAMA", "nama"]
      featC4 = some "label" := by decide

/-! ### Characterising the candidate tally -/

/-- The token keys contributed by one feature, in property order. -/
def tokKeys (f : Feature) : List String := (f.map Prod.fst).filter isTokenKey

/-- The stream of token keys scanned by `detect_prov_property_key`, in scan
order. -/
def keyStream (feats : List Feature) : List String := feats.flatMap tokKeys

lemma tokKeys_cons (p : String × String) (f : Feature) :
    tokKeys (p :: f) =
      if isTokenKey p.1 then p.1 :: tokKeys f else tokKeys f := by
  simp [tokKeys, List.filter_cons]

lemma inner_foldl_eq (f : Feature) (cs : List (String × Nat)) :
    f.foldl (fun cs p => if isTokenKey p.1 then bump cs p.1 else cs) cs
      = (tokKeys f).foldl bump cs := by
  induction f generalizing cs with
  | nil => rfl
  | cons p f ih =>
    rw [List.foldl_cons, tokKeys_cons]
    by_cases hp : isTokenKey p.1 = true
    · rw [if_pos hp, if_pos hp, List.foldl_cons]
      exact ih _
    · rw [if_neg hp, if_neg hp]
      exact ih _

lemma candidatesOf_eq_foldl (feats : List Feature) :
    candidatesOf feats = (keyStream feats).foldl bump [] := by
  suffices h : ∀ cs, feats.foldl (fun cs f =>
      f.foldl (fun cs p => if isTokenKey p.1 then bump cs p.1 else cs) cs) cs
      = (keyStream feats).foldl bump cs from h []
  induction feats with
  | nil => intro cs; rfl
  | cons f fs ih =>
    intro cs
    rw [List.foldl_cons, inner_foldl_eq]
    show _ = ((f :: fs).flatMap tokKeys).foldl bump cs
    rw [List.flatMap_cons, List.foldl_append]
    exact ih _

/-- First-occurrence tally of a key stream: each key once, with its total
count, in first-seen order. -/
def tallyC (ks : List String) : List (String × Nat) :=
  match ks with
  | [] => []
  | k :: ks' => (k, 1 + ks'.count k) :: tallyC (ks'.filter (fun x => !(x == k)))
termination_by ks.length
decreasing_by
  simp only [List.length_cons]
  exact Nat.lt_succ_of_le (List.length_filter_le _ _)

lemma tallyC_nil : tallyC [] = [] := by rw [tallyC]

lemma tallyC_cons (k : String) (ks : List String) :
    tallyC (k :: ks)
      = (k, 1 + ks.count k) :: tallyC (ks.filter (fun x => !(x == k))) := by
  rw [tallyC]

/-- The ordered-dict tally fold, fully characterised: existing keys are
bumped in place, fresh keys accumulate in first-seen order. -/
lemma foldl_bump_eq (ks : List String) : ∀ acc : List (String × Nat),
    ks.foldl bump acc =
      acc.map (fun p => (p.1, p.2 + ks.count p.1))
        ++ tallyC (ks.filter (fun k => !(acc.any (fun p => p.1 == k)))) := by
  induction ks with
  | nil =>
    intro acc
    simp [tallyC_nil]
  | cons k ks ih =>
    intro acc
    rw [List.foldl_cons, ih (bump acc k)]
    by_cases hk : acc.any (fun p => p.1 == k) = true
    · have hb : bump acc k
          = acc.map (fun p => if p.1 == k then (p.1, p.2 + 1) else p) := by
        rw [bump, if_pos hk]
      rw [hb]
      have hcomp : ∀ x, ((fun (p : String × Nat) => p.1 == x) ∘
          (fun p => if p.1 == k then (p.1, p.2 + 1) else p))
          = (fun (p : String × Nat) => p.1 == x) := by
        intro x
        funext p
        by_cases hpk : (p.1 == k) = true
        · simp only [Function.comp, if_pos hpk]
        · rw [Bool.not_eq_true] at hpk
          simp only [Function.comp, hpk, Bool.false_eq_true, if_false]
      have hmap : (acc.map (fun p => if p.1 == k then (p.1, p.2 + 1) else p)).map
            (fun p => (p.1, p.2 + ks.count p.1))
          = acc.map (fun p => (p.1, p.2 + (k :: ks).count p.1)) := by
        rw [List.map_map]
        apply List.map_congr_left
        intro p _
        by_cases hpk : (p.1 == k) = true
        · have hk1 : (k == p.1) = true := by
            rw [Bool.beq_comm]; exact hpk
          simp only [Function.comp, if_pos hpk, List.count_cons, hk1, if_pos]
          show (p.1, p.2 + 1 + ks.count p.1) = (p.1, p.2 + (ks.count p.1 + 1))
          rw [Nat.add_assoc, Nat.add_comm 1 (ks.count p.1)]
        · have hk1 : (k == p.1) = false := by
            rw [Bool.beq_comm]; rw [Bool.not_eq_true] at hpk; exact hpk
          rw [Bool.not_eq_true] at hpk
          simp only [Function.comp, hpk, Bool.false_eq_true, if_false,
            List.count_cons, hk1, Nat.add_zero]
      have hfil : (ks.filter (fun x => !((acc.map (fun p =>
            if p.1 == k then (p.1, p.2 + 1) else p)).any (fun p => p.1 == x))))
          = (k :: ks).filter (fun x => !(acc.any (fun p => p.1 == x))) := by
        rw [List.filter_cons]
        rw [show (!(acc.any (fun p => p.1 == k))) = false by rw [hk]; rfl]
        simp only [Bool.false_eq_true, if_false]
        apply List.filter_congr
        intro x _
        rw [List.any_map, hcomp x]
      rw [hmap, hfil]
    · rw [Bool.not_eq_true] at hk
      have hb : bump acc k = acc ++ [(k, 1)] := by
        rw [bump, hk]
        rfl
      rw [hb, List.map_append]
      have hmap : acc.map (fun p => (p.1, p.2 + ks.count p.1))
          = acc.map (fun p => (p.1, p.2 + (k :: ks).count p.1)) := by
        apply List.map_congr_left
        intro p hp
        have hpk : (k == p.1) = false := by
          rw [Bool.beq_comm]
          by_contra hcontra
          rw [Bool.not_eq_false] at hcontra
          have : acc.any (fun p => p.1 == k) = true :=
            List.any_eq_true.mpr ⟨p, hp, hcontra⟩
          rw [hk] at this
          exact Bool.false_ne_true this
        rw [List.count_cons, hpk]
        simp
      have hfil : ks.filter (fun x =>
            !((acc ++ [(k, 1)]).any (fun p => p.1 == x)))
          = (ks.filter (fun x => !(acc.any (fun p => p.1 == x)))).filter
              (fun x => !(x == k)) := by
        rw [List.filter_filter]
        apply List.filter_congr
        intro x _
        rw [List.any_append]
        show (!(acc.any (fun p => p.1 == x) || ((k == x) || false)))
          = (!(x == k) && !(acc.any (fun p => p.1 == x)))
        rw [Bool.or_false, Bool.not_or, Bool.and_comm]
        rw [show (k == x) = (x == k) from Bool.beq_comm]
      have hcons : (k :: ks).filter (fun x => !(acc.any (fun p => p.1 == x)))
          = k :: ks.filter (fun x => !(acc.any (fun p => p.1 == x))) := by
        rw [List.filter_cons]
        rw [show (!(acc.any (fun p => p.1 == k))) = true by rw [hk]; rfl]
        simp
      rw [hfil, hcons, tallyC_cons]
      have hcnt : (ks.filter (fun x =>
            !(acc.any (fun p => p.1 == x)))).count k = ks.count k := by
        apply List.count_filter
        show (!(acc.any (fun p => p.1 == k))) = true
        rw [hk]
        rfl
      rw [hcnt, hmap]
      simp

lemma candidatesOf_eq_tally (feats : List Feature) :
    candidatesOf feats = tallyC (keyStream feats) := by
  rw [candidatesOf_eq_foldl, foldl_bump_eq]
  simp

lemma mem_tallyC_spec :
    ∀ (ks : List String) (k : String) (c : Nat),
      (k, c) ∈ tallyC ks → k ∈ ks ∧ c = ks.count k := by
  intro ks
  induction ks using tallyC.induct with
  | case1 =>
    intro k c h
    rw [tallyC_nil] at h
    exact absurd h (List.not_mem_nil _)
  | case2 k ks ih =>
    intro k' c h
    rw [tallyC_cons] at h
    rcases List.mem_cons.mp h with heq | hmem
    · obtain ⟨h1, h2⟩ := Prod.mk.injEq .. |>.mp heq
      subst h1
      refine ⟨List.mem_cons_self _ _, ?_⟩
      rw [h2, List.count_cons]
      simp [Nat.add_comm]
    · obtain ⟨hmemf, hcnt⟩ := ih k' c hmem
      have hne : (k' == k) = false := by
        have h2 := (List.mem_filter.mp hmemf).2
        rw [Bool.not_eq_true'] at h2
        exact h2
      refine ⟨List.mem_cons_of_mem _ (List.mem_of_mem_filter hmemf), ?_⟩
      rw [List.count_cons, show (k == k') = false from by
        rw [Bool.beq_comm]; exact hne]
      rw [hcnt, List.count_filter (by rw [hne]; rfl)]
      simp

lemma count_mem_tallyC :
    ∀ (ks : List String) (k : String), k ∈ ks → (k, ks.count k) ∈ tallyC ks := by
  intro ks
  induction ks using tallyC.induct with
  | case1 =>
    intro k h
    exact absurd h (List.not_mem_nil _)
  | case2 k ks ih =>
    intro k' h
    rw [tallyC_cons]
    by_cases hkk : k' = k
    · subst hkk
      apply List.mem_cons.mpr
      left
      rw [List.count_cons, show (k' == k') = true from by simp]
      simp [Nat.add_comm]
    · have hbeq : (k' == k) = false := by
        rw [beq_eq_false_iff_ne]
        exact hkk
      have hmemf : k' ∈ ks.filter (fun x => !(x == k)) :=
        List.mem_filter.mpr ⟨(List.mem_cons.mp h).resolve_left hkk,
          by rw [hbeq]; rfl⟩
      have hmem := ih k' hmemf
      rw [List.count_filter (by rw [hbeq]; rfl)] at hmem
      apply List.mem_cons_of_mem
      rw [List.count_cons, show (k == k') = false from by
        rw [Bool.beq_comm]; exact hbeq]
      simpa using hmem

lemma foldl_pick_mem (cs : List (String × Nat)) :
    ∀ b, cs.foldl (fun b p => if p.2 > b.2 then p else b) b ∈ b :: cs := by
  induction cs with
  | nil => intro b; exact List.mem_singleton.mpr rfl
  | cons p cs ih =>
    intro b
    rw [List.foldl_cons]
    rcases List.mem_cons.mp (ih (if p.2 > b.2 then p else b)) with h | h
    · rw [h]
      by_cases hpb : p.2 > b.2
      · rw [if_pos hpb]
        exact List.mem_cons_of_mem _ (List.mem_cons_self _ _)
      · rw [if_neg hpb]
        exact List.mem_cons_self _ _
    · exact List.mem_cons_of_mem _ (List.mem_cons_of_mem _ h)

lemma foldl_pick_ge (cs : List (String × Nat)) :
    ∀ b, b.2 ≤ (cs.foldl (fun b p => if p.2 > b.2 then p else b) b).2 ∧
      ∀ x ∈ cs, x.2 ≤ (cs.foldl (fun b p => if p.2 > b.2 then p else b) b).2 := by
  induction cs with
  | nil =>
    intro b
    exact ⟨Nat.le_refl _, fun x hx => absurd hx (List.not_mem_nil _)⟩
  | cons p cs ih =>
    intro b
    rw [List.foldl_cons]
    obtain ⟨h1, h2⟩ := ih (if p.2 > b.2 then p else b)
    have hb : b.2 ≤ (if p.2 > b.2 then p else b).2 := by
      by_cases hpb : p.2 > b.2
      · rw [if_pos hpb]; omega
      · rw [if_neg hpb]
    have hp : p.2 ≤ (if p.2 > b.2 then p else b).2 := by
      by_cases hpb : p.2 > b.2
      · rw [if_pos hpb]
      · rw [if_neg hpb]; omega
    refine ⟨Nat.le_trans hb h1, ?_⟩
    intro x hx
    rcases List.mem_cons.mp hx with h | h
    · rw [h]; exact Nat.le_trans hp h1
    · exact h2 x h

lemma pickMax_mem {l : List (String × Nat)} {e : String × Nat}
    (h : pickMax l = some e) : e ∈ l := by
  match l with
  | [] => simp [pickMax] at h
  | c :: cs =>
    rw [pickMax] at h
    have := Option.some.injEq .. |>.mp h
    rw [← this]
    exact foldl_pick_mem cs c

lemma pickMax_ge {l : List (String × Nat)} {e : String × Nat}
    (h : pickMax l = some e) : ∀ x ∈ l, x.2 ≤ e.2 := by
  match l with
  | [] => simp [pickMax] at h
  | c :: cs =>
    rw [pickMax] at h
    have he := Option.some.injEq .. |>.mp h
    intro x hx
    obtain ⟨h1, h2⟩ := foldl_pick_ge cs c
    rcases List.mem_cons.mp hx with hxc | hxc
    · rw [hxc, ← he]; exact h1
    · rw [← he]; exact h2 x hxc

lemma pickMax_eq_none {l : List (String × Nat)} : pickMax l = none ↔ l = [] := by
  cases l <;> simp [pickMax]

lemma mem_keyStream (feats : List Feature) (k : String) :
    k ∈ keyStream feats ↔
      (isTokenKey k = true ∧ ∃ f ∈ feats, ∃ p ∈ f, p.1 = k) := by
  unfold keyStream tokKeys
  rw [List.mem_flatMap]
  constructor
  · rintro ⟨f, hf, hk⟩
    rw [List.mem_filter] at hk
    obtain ⟨hmem, htok⟩ := hk
    rcases List.mem_map.mp hmem with ⟨p, hp, hpk⟩
    exact ⟨htok, f, hf, p, hp, hpk⟩
  · rintro ⟨htok, f, hf, p, hp, hpk⟩
    exact ⟨f, hf, List.mem_filter.mpr
      ⟨List.mem_map.mpr ⟨p, hp, hpk⟩, htok⟩⟩

/-- **C4, amended.**  `detect_prov_property_key` selects a single key
globally by frequency: when it returns a key, that key is a known-token key
(its lowercase form contains one of `"prov"`, `"provinsi"`, `"name"`,
`"nama"`), occurs in some feature, and has maximal occurrence count over the
whole collection; when it returns nothing, no feature has any token key (and
the map endpoint then falls back to the literal key `"Provinsi"`, never to
the first string-valued property). -/
theorem detect_key_rule (feats : List Feature) :
    (detect_prov_property_key feats = none →
      ∀ f ∈ feats, ∀ p ∈ f, isTokenKey p.1 = false) ∧
    (∀ k, detect_prov_property_key feats = some k →
      isTokenKey k = true ∧ (∃ f ∈ feats, ∃ p ∈ f, p.1 = k) ∧
      ∀ k', (keyStream feats).count k' ≤ (keyStream feats).count k) := by
  constructor
  · intro hnone f hf p hp
    by_contra hcontra
    rw [Bool.not_eq_false] at hcontra
    have hks : p.1 ∈ keyStream feats :=
      (mem_keyStream feats p.1).mpr ⟨hcontra, f, hf, p, hp, rfl⟩
    unfold detect_prov_property_key at hnone
    rw [Option.map_eq_none', pickMax_eq_none, candidatesOf_eq_tally] at hnone
    cases hstream : keyStream feats with
    | nil => rw [hstream] at hks; exact absurd hks (List.not_mem_nil _)
    | cons a as =>
      rw [hstream, tallyC_cons] at hnone
      exact List.cons_ne_nil _ _ hnone
  · intro k hk
    unfold detect_prov_property_key at hk
    rcases Option.map_eq_some'.mp hk with ⟨e, he, hek⟩
    have hmem : e ∈ tallyC (keyStream feats) := by
      rw [← candidatesOf_eq_tally]
      exact pickMax_mem he
    obtain ⟨hksmem, hcnt⟩ := mem_tallyC_spec (keyStream feats) e.1 e.2 (by
      rw [show (e.1, e.2) = e from rfl]
      exact hmem)
    subst hek
    refine ⟨((mem_keyStream _ _).mp hksmem).1,
      ((mem_keyStream _ _).mp hksmem).2, ?_⟩
    intro k'
    by_cases hk' : k' ∈ keyStream feats
    · have hpair := count_mem_tallyC (keyStream feats) k' hk'
      rw [← candidatesOf_eq_tally] at hpair
      have hle := pickMax_ge he _ hpair
      simp only at hle
      omega
    · rw [List.count_eq_zero_of_not_mem hk']
      exact Nat.zero_le _

/-- A feature collection with two features carrying the token key
`"name"` and one non-token key. -/
def featsC4w : List Feature :=
  [[("name", "aceh"), ("ignore", "x")], [("name", "bali")]]

/-- Witness for `detect_key_rule` at a concrete feature collection:
`"name"` is detected, and its count dominates. -/
theorem detect_key_rule_witness :
    detect_prov_property_key featsC4w = some "name" ∧
    isTokenKey "name" = true ∧
    (keyStream featsC4w).count "ignore" ≤ (keyStream featsC4w).count "name" :=
  ⟨by decide,
   ((detect_key_rule featsC4w).2 "name" (by decide)).1,
   ((detect_key_rule featsC4w).2 "name" (by decide)).2.2 "ignore"⟩

/-! ## `POST /api/predict-overfishing` -/

/-- A JSON value of the prediction request body (the shapes the handler can
receive for the fields it reads; arrays/objects omitted — they would fail
`float()` exactly like `null` does). -/
inductive JVal where
  | jnum (q : Rat)
  | jstr (s : String)
  | jbool (b : Bool)
  | jnull
  deriving DecidableEq, Repr

/-- The JSON request object, as an ordered key/value list. -/
abbrev JObj := List (String × JVal)

/-- `data.get(k)`. -/
def jget (o : JObj) (k : String) : Option JVal :=
  (o.find? (fun p => p.1 == k)).map (·.2)

/-- `data.get(k, 0)`. -/
def jgetD (o : JObj) (k : String) : JVal :=
  (jget o k).getD (JVal.jnum 0)

/-- Digit-list to number. -/
def digitsToNat (ds : List Char) : Nat :=
  ds.foldl (fun a c => a * 10 + (c.toNat - '0'.toNat)) 0

/-- Python `float(s)` on a string: optional whitespace and sign, then a
plain decimal `digits[.digits]` with at least one digit (scientific
notation and `inf`/`nan` literals are outside the modelled input space). -/
def pyFloatOfString (s : String) : Option Rat :=
  let t := (pyStrip s).data
  let su : Bool × List Char :=
    match t with
    | '-' :: rest => (true, rest)
    | '+' :: rest => (false, rest)
    | cs => (false, cs)
  let intPart := su.2.takeWhile (fun c => c.isDigit)
  let rest := su.2.dropWhile (fun c => c.isDigit)
  let mag : Option Rat :=
    match rest with
    | [] => if intPart.isEmpty then none else some (digitsToNat intPart : Rat)
    | '.' :: frac =>
      if frac.all (fun c => c.isDigit) && !(intPart.isEmpty && frac.isEmpty) then
        some ((digitsToNat intPart : Rat)
          + (digitsToNat frac : Rat) / ((10 : Rat) ^ frac.length))
      else none
    | _ => none
  mag.map (fun q => if su.1 then -q else q)

/-- Python `float(x)` on the value of a present field (or the default `0`). -/
def pyFloat : JVal → Except String Rat
  | JVal.jnum q => Except.ok q
  | JVal.jbool b => Except.ok (if b then 1 else 0)
  | JVal.jstr s =>
    match pyFloatOfString s with
    | some q => Except.ok q
    | none => Except.error ("could not convert string to float: '" ++ s ++ "'")
  | JVal.jnull =>
    Except.error "float() argument must be a string or a real number, not 'NoneType'"

/-- Python `int(x)` on `data.get("tahun")` (`none` = key absent, so the
argument is Python `None` and `int(None)` raises). -/
def pyInt : Option JVal → Except String Int
  | none =>
    Except.error "int() argument must be a string, a bytes-like object or a real number, not 'NoneType'"
  | some (JVal.jnum q) => Except.ok (q.num / (q.den : Int))
  | some (JVal.jbool b) => Except.ok (if b then 1 else 0)
  | some (JVal.jstr s) =>
    match pyIntOfString s with
    | some n => Except.ok n
    | none => Except.error ("invalid literal for int() with base 10: '" ++ s ++ "'")
  | some JVal.jnull =>
    Except.error "int() argument must be a string, a bytes-like object or a real number, not 'NoneType'"

/-- The fixed status enumeration of the classification. -/
inductive Status where
  | UNDERFISHING
  | UNCERTAIN
  | DATA_DEFICIENT
  | OVERFISHING
  | GROWTH_OVERFISHING
  | RECRUITMENT_OVERFISHING
  deriving DecidableEq, Repr

/-- The label string of a status. -/
def Status.label : Status → String
  | .UNDERFISHING => "UNDERFISHING"
  | .UNCERTAIN => "UNCERTAIN"
  | .DATA_DEFICIENT => "DATA DEFICIENT"
  | .OVERFISHING => "OVERFISHING"
  | .GROWTH_OVERFISHING => "GROWTH OVERFISHING"
  | .RECRUITMENT_OVERFISHING => "RECRUITMENT OVERFISHING"

/-- The known status-enumeration strings. -/
def statusLabels : List String :=
  ["UNDERFISHING", "UNCERTAIN", "DATA DEFICIENT", "OVERFISHING",
   "GROWTH OVERFISHING", "RECRUITMENT OVERFISHING"]

/-- The single-record input frame built by the handler. -/
structure PredInput where
  tahun : Int
  provinsi : Option JVal
  kelompokIkan : Option JVal
  effort : Rat
  cpue : Rat
  hasilTangkapan : Rat
  tpC : Rat
  tpE : Rat
  deriving DecidableEq, Repr

/-- Modelled from the spec: the classifier artifact
(`models/model_stok_ikan.joblib`) is not part of the source tree; per the
specification the prediction model "accepts one structured record, returns
one categorical label" of the status enumeration. -/
abbrev Model := PredInput → Status

/-- The field-extraction prefix of `predict_overfishing`, in source order:
the five `float(...)` conversions (each defaulting to `0` for an absent
field), then `int(tahun)` at the `DataFrame` construction.  The first
raised exception aborts the handler. -/
def parsePayload (data : JObj) : Except String PredInput :=
  match pyFloat (jgetD data "effort") with
  | .error e => .error e
  | .ok effort =>
    match pyFloat (jgetD data "cpue") with
    | .error e => .error e
    | .ok cpue =>
      match pyFloat (jgetD data "catch") with
      | .error e => .error e
      | .ok hasil =>
        match pyFloat (jgetD data "tp_c") with
        | .error e => .error e
        | .ok tpc =>
          match pyFloat (jgetD data "tp_e") with
          | .error e => .error e
          | .ok tpe =>
            match pyInt (jget data "tahun") with
            | .error e => .error e
            | .ok t =>
              .ok ⟨t, jget data "provinsi", jget data "kelompok_ikan",
                effort, cpue, hasil, tpc, tpe⟩

/-- The JSON response of `POST /api/predict-overfishing` with its HTTP
status code (`success` is served with the default code 200). -/
inductive PredictResp where
  | success (prediction : String) (tahun provinsi kelompok_ikan : Option JVal)
  | error (message : String) (code : Nat)
  deriving DecidableEq, Repr

/-- A 4xx client-error HTTP status code. -/
def isClientErrorCode (c : Nat) : Prop := 400 ≤ c ∧ c < 500

/-- A 5xx server-error HTTP status code. -/
def isServerErrorCode (c : Nat) : Prop := 500 ≤ c ∧ c < 600

/-- `POST /api/predict-overfishing`: the whole handler body runs inside
`try`, whose `except` clause converts any raised exception into
`({"status": "error", "message": str(e)}, 500)`; a missing model is
reported from inside the `try` with code 500 as well. -/
def predict_overfishing (model : Option Model) (data : JObj) : PredictResp :=
  match parsePayload data with
  | .error msg => PredictResp.error msg 500
  | .ok inp =>
    match model with
    | none => PredictResp.error "Model tidak tersedia di server." 500
    | some m =>
      PredictResp.success (m inp).label (jget data "tahun")
        (jget data "provinsi") (jget data "kelompok_ikan")

/-- A payload whose `effort` field is present but not parseable as a number. -/
def payloadC6 : JObj := [("tahun", JVal.jnum 2020), ("effort", JVal.jstr "abc")]

/-- **C6, counterexample.**  A malformed numeric field is caught by the
blanket `except` and answered with HTTP **500** — a server error, not the
client-error (4xx) code the claim states. -/
theorem predict_badfloat_counterexample :
    predict_overfishing (some (fun _ => Status.OVERFISHING)) payloadC6
      = PredictResp.error "could not convert string to float: 'abc'" 500
    ∧ ¬ isClientErrorCode 500 := by
  constructor
  · rfl
  · intro h
    obtain ⟨_, h2⟩ := h
    omega

/-- **C6, amended.**  For every malformed prediction payload (a required
numeric field present but not parseable), the endpoint returns an error
JSON response carrying the underlying message — but with HTTP status 500
(server error), not a 4xx client-error code. -/
theorem predict_badpayload_500 (model : Option Model) (data : JObj)
    (msg : String) (h : parsePayload data = Except.error msg) :
    predict_overfishing model data = PredictResp.error msg 500 := by
  unfold predict_overfishing
  rw [h]

/-- Witness for `predict_badpayload_500` at a concrete malformed payload. -/
theorem predict_badpayload_500_witness :
    parsePayload payloadC6
      = Except.error "could not convert string to float: 'abc'" ∧
    predict_overfishing none payloadC6
      = PredictResp.error "could not convert string to float: 'abc'" 500 :=
  ⟨rfl, predict_badpayload_500 none payloadC6 _ rfl⟩

/-- **C7.**  With a well-formed payload and an available model the response
is a success whose prediction is one of the known status-enumeration
strings; with no model loaded the response is an error with a server-error
(5xx) status code. -/
theorem predict_model_contract :
    (∀ (m : Model) (data : JObj) (inp : PredInput),
      parsePayload data = Except.ok inp →
      predict_overfishing (some m) data
        = PredictResp.success (m inp).label (jget data "tahun")
            (jget data "provinsi") (jget data "kelompok_ikan")
      ∧ (m inp).label ∈ statusLabels) ∧
    (∀ data : JObj, ∃ msg, predict_overfishing none data
      = PredictResp.error msg 500 ∧ isServerErrorCode 500) := by
  constructor
  · intro m data inp h
    constructor
    · unfold predict_overfishing
      rw [h]
    · cases m inp <;> simp [Status.label, statusLabels]
  · intro data
    unfold predict_overfishing
    cases hp : parsePayload data with
    | error msg => exact ⟨msg, rfl, by omega, by omega⟩
    | ok inp =>
      exact ⟨"Model tidak tersedia di server.", rfl, by omega, by omega⟩

/-- A well-formed minimal payload: only `tahun` is supplied. -/
def payloadC7 : JObj := [("tahun", JVal.jnum 2020)]

/-- The parsed record of `payloadC7`: every defaulted numeric field is `0`. -/
def predInpC7 : PredInput := ⟨2020, none, none, 0, 0, 0, 0, 0⟩

/-- Witness for `predict_model_contract` at a concrete model and payload. -/
theorem predict_model_contract_witness :
    parsePayload payloadC7 = Except.ok predInpC7 ∧
    (predict_overfishing (some (fun _ => Status.OVERFISHING)) payloadC7
        = PredictResp.success "OVERFISHING" (some (JVal.jnum 2020)) none none
      ∧ "OVERFISHING" ∈ statusLabels) ∧
    (∃ msg, predict_overfishing none payloadC7
      = PredictResp.error msg 500 ∧ isServerErrorCode 500) :=
  ⟨rfl,
   predict_model_contract.1 (fun _ => Status.OVERFISHING) payloadC7 predInpC7 rfl,
   predict_model_contract.2 payloadC7⟩

/-- **C10.**  The numeric fields `effort`, `cpue`, `catch`, `tp_c`, `tp_e`
default to `0` when absent, so a payload carrying only `tahun` succeeds
(the parsed record is all-zero on those fields); `tahun` has no default,
and a payload without a `tahun` key always yields an error response. -/
theorem predict_defaults_rule :
    (∀ (m : Model),
      predict_overfishing (some m) [("tahun", JVal.jnum 2020)]
        = PredictResp.success (m ⟨2020, none, none, 0, 0, 0, 0, 0⟩).label
            (some (JVal.jnum 2020)) none none) ∧
    (∀ (model : Option Model) (data : JObj), jget data "tahun" = none →
      ∃ msg, predict_overfishing model data = PredictResp.error msg 500) := by
  constructor
  · intro m
    rfl
  · intro model data htahun
    unfold predict_overfishing
    unfold parsePayload
    rw [htahun]
    cases h1 : pyFloat (jgetD data "effort") with
    | error e => exact ⟨e, rfl⟩
    | ok effort =>
      cases h2 : pyFloat (jgetD data "cpue") with
      | error e => exact ⟨e, rfl⟩
      | ok cpue =>
        cases h3 : pyFloat (jgetD data "catch") with
        | error e => exact ⟨e, rfl⟩
        | ok hasil =>
          cases h4 : pyFloat (jgetD data "tp_c") with
          | error e => exact ⟨e, rfl⟩
          | ok tpc =>
            cases h5 : pyFloat (jgetD data "tp_e") with
            | error e => exact ⟨e, rfl⟩
            | ok tpe =>
              exact ⟨_, rfl⟩

/-- A payload with no `tahun` key at all. -/
def payloadC10 : JObj := [("effort", JVal.jnum 1)]

/-- Witness for `predict_defaults_rule` at a concrete model and payload. -/
theorem predict_defaults_rule_witness :
    (predict_overfishing (some (fun _ => Status.UNDERFISHING))
        [("tahun", JVal.jnum 2020)]
      = PredictResp.success "UNDERFISHING" (some (JVal.jnum 2020)) none none) ∧
    jget payloadC10 "tahun" = none ∧
    (∃ msg, predict_overfishing none payloadC10
      = PredictResp.error msg 500) :=
  ⟨predict_defaults_rule.1 (fun _ => Status.UNDERFISHING),
   rfl,
   predict_defaults_rule.2 none payloadC10 rfl⟩

/-! ## `GET /api/peta-kepatuhan` -/

/-- First non-`none` element (pandas `groupby(...).first()` skips `NaN`). -/
def firstSome : List (Option String) → Option String
  | [] => none
  | some s :: _ => some s
  | none :: rest => firstSome rest

/-- `prov_status[p]` for a province `p` present in the filtered frame:
`df_filtered.groupby("Provinsi")["Status"].first()` — the first non-null
status among the province's rows. -/
def firstGroupStatus (d : Dataset) (p : String) : Option String :=
  firstSome ((d.filter (fun r => r.provinsi == p)).map Row.status)

/-- `prov_status.get(prov_name, "Tidak ada Data")`.  The result is the
string later sent to `.upper()`; `none` models the `AttributeError` crash
when the province is present but every status cell of its group is missing
(pandas `first()` then yields `NaN`). -/
def statusStringFor (d : Dataset) (p : String) : Option String :=
  if d.any (fun r => r.provinsi == p) then firstGroupStatus d p
  else some "Tidak ada Data"

/-- Split a digit list (least-significant first) into groups of three. -/
def chunk3 (l : List Char) : List (List Char) :=
  match l with
  | [] => []
  | a :: b :: c :: rest@(_ :: _) => [a, b, c] :: chunk3 rest
  | rest => [rest]

/-- Thousands-separated decimal rendering of a natural number
(`f"{n:,}"`). -/
def fmtThousandsNat (n : Nat) : String :=
  String.mk (List.intercalate [',']
    (((chunk3 (Nat.toDigits 10 n).reverse).map List.reverse).reverse))

/-- `f"{catch_val:,}"` for a float catch value.  Python's shortest float
repr is approximated by an exact decimal expansion (up to 30 fractional
digits); the values are only interpolated into the informational popup
text, which no claim inspects. -/
def fmtCatch (q : Rat) : String :=
  let sign := if q.num < 0 then "-" else ""
  let n := q.num.natAbs
  if q.den = 1 then sign ++ fmtThousandsNat n ++ ".0"
  else
    let ip := n / q.den
    let rem0 := n % q.den
    let rec fracDigits : Nat → Nat → List Char
      | 0, _ => []
      | _, 0 => []
      | fuel + 1, rem =>
        let d := rem * 10 / q.den
        Char.ofNat ('0'.toNat + d) :: fracDigits fuel (rem * 10 % q.den)
    sign ++ fmtThousandsNat ip ++ "." ++ String.mk (fracDigits 30 rem0)

/-- `f"{total:,.0f}"`: half-even rounding to an integer, thousands
separators. -/
def fmtTotal (q : Rat) : String :=
  let i := rndHalfEven q
  (if i < 0 then "-" else "") ++ fmtThousandsNat i.natAbs

/-- `r.get('Status','')` interpolated into an f-string: a missing cell is
`NaN` and prints as `"nan"`. -/
def statusCellText : Option String → String
  | some s => s
  | none => "nan"

/-- One line of `build_info_text`. -/
def infoLine (r : Row) : String :=
  r.kelompokIkan ++ ": " ++ fmtCatch r.catchTon ++ " ton ("
    ++ statusCellText r.status ++ ")"

/-- `build_info_text(subdf)`. -/
def build_info_text (sub : Dataset) : String :=
  String.intercalate "<br>" (sub.map infoLine)
    ++ "<br><br><b>Total tangkapan: "
    ++ fmtTotal (sub.map (·.catchTon)).sum ++ " ton</b>"

/-- `df_summary.get(prov_name, "Tidak ada data ikan untuk filter ini.")`. -/
def infoStringFor (d : Dataset) (p : String) : String :=
  if d.any (fun r => r.provinsi == p) then
    build_info_text (d.filter (fun r => r.provinsi == p))
  else "Tidak ada data ikan untuk filter ini."

/-- The static status→color table of `api_peta_kepatuhan`. -/
def status_colors : List (String × String) :=
  [("UNDERFISHING", "#2ecc71"), ("UNCERTAIN", "#95a5a6"),
   ("DATA DEFICIENT", "#95a5a6"), ("OVERFISHING", "#e74c3c"),
   ("GROWTH OVERFISHING", "#f1c40f"), ("RECRUITMENT OVERFISHING", "#e67e22")]

/-- `status_colors.get(status.upper(), "#dcdcdc")`. -/
def colorFor (statusUpper : String) : String :=
  (((status_colors.find? (fun p => p.1 == statusUpper)).map (·.2))).getD "#dcdcdc"

/-- `str(props.get(prop_key, props.get("Provinsi", ""))).upper()`. -/
def provNameOf (key : String) (ps : Feature) : String :=
  pyUpper ((getProp ps key).getD ((getProp ps "Provinsi").getD ""))

/-- One iteration of the enrichment loop of `api_peta_kepatuhan` on one
feature's properties; `none` models the uncaught `AttributeError`
(`status.upper()` on `NaN`). -/
def enrichProps (key : String) (d : Dataset) (ps : Feature) : Option Feature :=
  match statusStringFor d (provNameOf key ps) with
  | none => none
  | some status =>
    some (setProp (setProp (setProp (setProp ps
      "Provinsi" (provNameOf key ps))
      "Status" status)
      "info_ikan" (infoStringFor d (provNameOf key ps)))
      "warna" (colorFor (pyUpper status)))

/-- The whole enrichment loop over the shared `geojson_data["features"]`. -/
def enrichAll (key : String) (d : Dataset) (feats : List Feature) :
    Option (List Feature) :=
  feats.mapM (enrichProps key d)

/-- The data-level response of `/api/peta-kepatuhan`: a plain message, or
the enriched feature collection handed to folium (the folium HTML
rendering is an external collaborator and is not modelled). -/
inductive PetaResp where
  | message (text : String)
  | rendered (feats : List Feature)
  deriving DecidableEq, Repr

/-- `GET /api/peta-kepatuhan`: guards, the three optional filters, key
detection, and the in-place feature enrichment.  Returns the response
together with the post-request state of the shared boundary features;
`none` models an unhandled exception escaping the handler. -/
def api_peta_kepatuhan (df : Dataset) (tahun provinsi ikan : Option String)
    (feats : List Feature) : Option (PetaResp × List Feature) :=
  if df.isEmpty || feats.isEmpty then
    some (PetaResp.message "<p>Data peta atau dataset tidak tersedia.</p>", feats)
  else
    let dfF := applyIkanFilter (applyProvinsiFilter
      (applyTahunFilter df tahun) provinsi) ikan
    if dfF.isEmpty then
      some (PetaResp.message "<p>Tidak ada data untuk filter ini.</p>", feats)
    else
      let key := (detect_prov_property_key feats).getD "Provinsi"
      match enrichAll key dfF feats with
      | none => none
      | some feats' => some (PetaResp.rendered feats', feats')

/-- Projection through the optional enrichment result. -/
def enrichedProp (e : Option Feature) (k : String) : Option String :=
  e.bind (fun ps => getProp ps k)

lemma getProp_cons (p : String × String) (ps : Feature) (k : String) :
    getProp (p :: ps) k = if p.1 == k then some p.2 else getProp ps k := by
  unfold getProp
  cases h : (p.1 == k) <;> simp [List.find?_cons, h]

lemma getProp_map_set (ps : Feature) (k v k' : String) :
    getProp (ps.map (fun p => if p.1 == k then (k, v) else p)) k'
      = if k' = k then
          (if ps.any (fun p => p.1 == k) then some v else none)
        else getProp ps k' := by
  induction ps with
  | nil =>
    by_cases h : k' = k <;> simp [getProp, h]
  | cons p ps ih =>
    rw [List.map_cons, getProp_cons, getProp_cons]
    by_cases hpk : (p.1 == k) = true
    · rw [if_pos hpk]
      by_cases hk' : k' = k
      · have h1 : ((k, v).1 == k') = true := by
          show (k == k') = true
          rw [hk']
          simp
        rw [if_pos h1, if_pos hk']
        have h2 : ((p :: ps).any (fun p => p.1 == k)) = true := by
          rw [List.any_cons, hpk]
          rfl
        rw [h2]
        simp
      · have h1 : ((k, v).1 == k') = false := by
          show (k == k') = false
          rw [beq_eq_false_iff_ne]
          exact fun h => hk' h.symm
        have h2 : (p.1 == k') = false := by
          rw [beq_eq_false_iff_ne, eq_of_beq hpk]
          exact fun h => hk' h.symm
        rw [h1, h2]
        simp only [Bool.false_eq_true, if_false]
        rw [ih, if_neg hk', if_neg hk']
    · rw [if_neg hpk]
      rw [Bool.not_eq_true] at hpk
      by_cases hk' : k' = k
      · have h2 : (p.1 == k') = false := by
          rw [hk']
          exact hpk
        rw [h2]
        simp only [Bool.false_eq_true, if_false]
        rw [ih, if_pos hk', if_pos hk']
        rw [List.any_cons, hpk, Bool.false_or]
      · rw [ih, if_neg hk', if_neg hk']

lemma getProp_eq_none_of_not_any (ps : Feature) (k : String)
    (h : ps.any (fun p => p.1 == k) = false) : getProp ps k = none := by
  unfold getProp
  rw [Option.map_eq_none']
  rw [List.find?_eq_none]
  intro x hx hpx
  have : ps.any (fun p => p.1 == k) = true := List.any_eq_true.mpr ⟨x, hx, hpx⟩
  rw [h] at this
  exact Bool.false_ne_true this

/-- The ordered-dict assignment law: reading key `k'` after `props[k] = v`. -/
lemma getProp_setProp (ps : Feature) (k v k' : String) :
    getProp (setProp ps k v) k' = if k' = k then some v else getProp ps k' := by
  unfold setProp
  by_cases hany : ps.any (fun p => p.1 == k) = true
  · rw [if_pos hany, getProp_map_set]
    by_cases hk' : k' = k
    · rw [if_pos hk', if_pos hk', if_pos hany]
    · rw [if_neg hk', if_neg hk']
  · rw [if_neg hany]
    rw [Bool.not_eq_true] at hany
    unfold getProp
    rw [List.find?_append]
    by_cases hk' : k' = k
    · subst hk'
      have hnone : ps.find? (fun p => p.1 == k') = none := by
        rw [List.find?_eq_none]
        intro x hx hpx
        have : ps.any (fun p => p.1 == k') = true :=
          List.any_eq_true.mpr ⟨x, hx, hpx⟩
        rw [hany] at this
        exact Bool.false_ne_true this
      rw [hnone, if_pos rfl]
      simp [List.find?]
    · rw [if_neg hk']
      have hsingle : ([((k : String), v)].find? (fun p => p.1 == k')) = none := by
        rw [List.find?_eq_none]
        intro x hx hpx
        rw [List.mem_singleton] at hx
        subst hx
        have : k = k' := eq_of_beq hpx
        exact hk' this.symm
      rw [hsingle]
      cases hfind : ps.find? (fun p => p.1 == k') <;> rfl

/-- The key sequence is preserved by assignment to a present key and
extended by a fresh key. -/
lemma setProp_keys (ps : Feature) (k v : String) :
    (setProp ps k v).map Prod.fst
      = if ps.any (fun p => p.1 == k) then ps.map Prod.fst
        else ps.map Prod.fst ++ [k] := by
  unfold setProp
  by_cases hany : ps.any (fun p => p.1 == k) = true
  · rw [if_pos hany, if_pos hany, List.map_map]
    apply List.map_congr_left
    intro p _
    by_cases hpk : (p.1 == k) = true
    · simp only [Function.comp, if_pos hpk]
      exact (eq_of_beq hpk).symm
    · rw [Bool.not_eq_true] at hpk
      simp only [Function.comp, hpk, Bool.false_eq_true, if_false]
  · rw [if_neg hany, if_neg hany, List.map_append]
    rfl

/-- Unfolding of a non-crashing enrichment step. -/
lemma enrichProps_eq_some (key : String) (d : Dataset) (ps : Feature)
    (status : String)
    (h : statusStringFor d (provNameOf key ps) = some status) :
    enrichProps key d ps = some (setProp (setProp (setProp (setProp ps
      "Provinsi" (provNameOf key ps))
      "Status" status)
      "info_ikan" (infoStringFor d (provNameOf key ps)))
      "warna" (colorFor (pyUpper status))) := by
  unfold enrichProps
  rw [h]

/-- The status and colour a non-crashing enrichment injects. -/
lemma enrichProps_status_warna (key : String) (d : Dataset) (ps : Feature)
    (status : String)
    (h : statusStringFor d (provNameOf key ps) = some status) :
    enrichedProp (enrichProps key d ps) "Status" = some status ∧
    enrichedProp (enrichProps key d ps) "warna"
      = some (colorFor (pyUpper status)) := by
  rw [enrichProps_eq_some key d ps status h]
  unfold enrichedProp
  constructor
  · show getProp _ "Status" = some status
    rw [getProp_setProp]
    rw [if_neg (by decide)]
    rw [getProp_setProp]
    rw [if_neg (by decide)]
    rw [getProp_setProp]
    rw [if_pos rfl]
  · show getProp _ "warna" = some (colorFor (pyUpper status))
    rw [getProp_setProp]
    rw [if_pos rfl]

/-- The dataset for the C5 theorems: one OVERFISHING row for ACEH. -/
def dfC5 : Dataset :=
  [ { tahun := 2020, provinsi := "ACEH", kelompokIkan := "Tuna",
      catchTon := 100, tpC := 10, tpE := 10, status := some "OVERFISHING" } ]

/-- A boundary feature whose name value carries surrounding whitespace. -/
def featC5 : Feature := [("name", " aceh ")]

/-- **C5, counterexample.**  The join normalisation is `.upper()` only —
there is no trimming.  A feature named `" aceh "`, whose trimmed-uppercased
name `"ACEH"` is a province with status OVERFISHING, still receives the
no-data status and neutral colour `#dcdcdc` instead of `#e74c3c`. -/
theorem peta_join_counterexample :
    pyUpper (pyStrip " aceh ") = "ACEH" ∧
    firstGroupStatus dfC5 "ACEH" = some "OVERFISHING" ∧
    (detect_prov_property_key [featC5]).getD "Provinsi" = "name" ∧
    enrichedProp (enrichProps "name" dfC5 featC5) "Status"
      = some "Tidak ada Data" ∧
    enrichedProp (enrichProps "name" dfC5 featC5) "warna" = some "#dcdcdc" ∧
    "#dcdcdc" ≠ "#e74c3c" := by decide

/-- **C5, amended.**  In the map join, matching uses the uppercased —
untrimmed — feature name: every feature whose uppercased name is a province
whose group status is `"OVERFISHING"` receives fill colour `#e74c3c`, and
every feature whose uppercased name matches no province of the filtered
data receives status `"Tidak ada Data"` and the neutral colour `#dcdcdc`. -/
theorem peta_join_colors (d : Dataset) (key : String) (ps : Feature) :
    (statusStringFor d (provNameOf key ps) = some "OVERFISHING" →
      enrichedProp (enrichProps key d ps) "warna" = some "#e74c3c") ∧
    ((∀ r ∈ d, r.provinsi ≠ provNameOf key ps) →
      enrichedProp (enrichProps key d ps) "Status" = some "Tidak ada Data" ∧
      enrichedProp (enrichProps key d ps) "warna" = some "#dcdcdc") := by
  constructor
  · intro h
    have hw := (enrichProps_status_warna key d ps "OVERFISHING" h).2
    rw [hw]
    rw [show colorFor (pyUpper "OVERFISHING") = "#e74c3c" from by decide]
  · intro h
    have hany : d.any (fun r => r.provinsi == provNameOf key ps) = false := by
      rw [List.any_eq_false]
      intro r hr
      rw [Bool.not_eq_true, beq_eq_false_iff_ne]
      exact h r hr
    have hst : statusStringFor d (provNameOf key ps) = some "Tidak ada Data" := by
      unfold statusStringFor
      rw [hany]
      rfl
    obtain ⟨h1, h2⟩ := enrichProps_status_warna key d ps "Tidak ada Data" hst
    refine ⟨h1, ?_⟩
    rw [h2]
    rw [show colorFor (pyUpper "Tidak ada Data") = "#dcdcdc" from by decide]

/-- A feature matching the OVERFISHING province of `dfC5` exactly. -/
def featC5w : Feature := [("name", "aceh")]

/-- A feature matching no province of `dfC5`. -/
def featC5w2 : Feature := [("name", "papua")]

/-- Witness for `peta_join_colors` at concrete data and features. -/
theorem peta_join_colors_witness :
    statusStringFor dfC5 (provNameOf "name" featC5w) = some "OVERFISHING" ∧
    enrichedProp (enrichProps "name" dfC5 featC5w) "warna" = some "#e74c3c" ∧
    enrichedProp (enrichProps "name" dfC5 featC5w2) "Status"
      = some "Tidak ada Data" ∧
    enrichedProp (enrichProps "name" dfC5 featC5w2) "warna" = some "#dcdcdc" :=
  ⟨by decide,
   (peta_join_colors dfC5 "name" featC5w).1 (by decide),
   ((peta_join_colors dfC5 "name" featC5w2).2 (by decide)).1,
   ((peta_join_colors dfC5 "name" featC5w2).2 (by decide)).2⟩

/-- The dataset for the C8 witness. -/
def dfC8 : Dataset :=
  [ { tahun := 2020, provinsi := "ACEH", kelompokIkan := "Tuna",
      catchTon := 100, tpC := 10, tpE := 10, status := some "OVERFISHING" } ]

/-- The boundary features for the C8 witness. -/
def featsC8 : List Feature := [[("name", "aceh")]]

/-- **C8.**  A `tahun` filter value that fails to parse never causes an
error response: on both filtered endpoints the query behaves exactly as if
the filter were absent. -/
theorem filter_parse_failure_ignored (df : Dataset) (t : String)
    (provinsi ikan : Option String) (feats : List Feature)
    (hbad : pyIntOfString t = none) :
    api_dashboard_populasi df (some t) provinsi ikan
      = api_dashboard_populasi df none provinsi ikan
    ∧ api_peta_kepatuhan df (some t) provinsi ikan feats
      = api_peta_kepatuhan df none provinsi ikan feats := by
  have h : applyTahunFilter df (some t) = applyTahunFilter df none := by
    show (if (!(t == "") && !(pyStrip t == "")) = true then
        match pyIntOfString t with
        | some n => df.filter (fun r => r.tahun == n)
        | none => df
      else df) = df
    by_cases hs : (!(t == "") && !(pyStrip t == "")) = true
    · rw [if_pos hs, hbad]
    · rw [if_neg hs]
  constructor
  · unfold api_dashboard_populasi
    rw [h]
  · unfold api_peta_kepatuhan
    rw [h]

/-- Witness for `filter_parse_failure_ignored` with the unparsable year
`"20x"`. -/
theorem filter_parse_failure_ignored_witness :
    pyIntOfString "20x" = none ∧
    api_dashboard_populasi dfC8 (some "20x") (some "aceh") none
      = api_dashboard_populasi dfC8 none (some "aceh") none ∧
    api_peta_kepatuhan dfC8 (some "20x") (some "aceh") none featsC8
      = api_peta_kepatuhan dfC8 none (some "aceh") none featsC8 :=
  ⟨by decide,
   (filter_parse_failure_ignored dfC8 "20x" (some "aceh") none featsC8
     (by decide)).1,
   (filter_parse_failure_ignored dfC8 "20x" (some "aceh") none featsC8
     (by decide)).2⟩

/-! ## Idempotence of the map request (claim C9)

The second identical map request recomputes the key detection over the
already-enriched features and re-injects the same four properties.  The
development below establishes that the recomputed key is either the key of
the first request or the literal `"Provinsi"` — whose value the first
request set to the already-uppercased province name — so the second
enrichment is a no-op. -/

lemma char_toNat_ofNat_valid {n : Nat} (h : n.isValidChar) :
    (Char.ofNat n).toNat = n := by
  rw [Char.ofNat, dif_pos h]
  rfl

lemma char_toUpper_idem (c : Char) : c.toUpper.toUpper = c.toUpper := by
  simp only [Char.toUpper]
  by_cases h : c.toNat ≥ 97 ∧ c.toNat ≤ 122
  · rw [if_pos h]
    have hv : (c.toNat - 32).isValidChar := Or.inl (by omega)
    have ht : (Char.ofNat (c.toNat - 32)).toNat = c.toNat - 32 :=
      char_toNat_ofNat_valid hv
    rw [if_neg]
    rw [ht]
    omega
  · rw [if_neg h, if_neg h]

lemma pyUpper_idem (s : String) : pyUpper (pyUpper s) = pyUpper s := by
  unfold pyUpper
  rw [List.map_map]
  congr 1
  apply List.map_congr_left
  intro c _
  exact char_toUpper_idem c

/-- The first-maximum decomposition computed by `pickMax`: everything
before the result is strictly smaller, everything after is no larger. -/
lemma pickMax_cons_spec :
    ∀ (cs : List (String × Nat)) (c : String × Nat),
      ∃ l₁ l₂, c :: cs
          = l₁ ++ (cs.foldl (fun b p => if p.2 > b.2 then p else b) c) :: l₂
        ∧ (∀ x ∈ l₁, x.2 < (cs.foldl (fun b p => if p.2 > b.2 then p else b) c).2)
        ∧ (∀ x ∈ l₂, x.2 ≤ (cs.foldl (fun b p => if p.2 > b.2 then p else b) c).2) := by
  intro cs
  induction cs with
  | nil =>
    intro c
    exact ⟨[], [], rfl, by intro x hx; simp at hx, by intro x hx; simp at hx⟩
  | cons p cs ih =>
    intro c
    rw [List.foldl_cons]
    obtain ⟨l₁, l₂, hsplit, h1, h2⟩ := ih (if p.2 > c.2 then p else c)
    have hseed : (if p.2 > c.2 then p else c).2
        ≤ (cs.foldl (fun b p => if p.2 > b.2 then p else b)
            (if p.2 > c.2 then p else c)).2 :=
      (foldl_pick_ge cs _).1
    by_cases hpc : p.2 > c.2
    · rw [if_pos hpc] at hsplit h1 h2 hseed ⊢
      refine ⟨c :: l₁, l₂, ?_, ?_, h2⟩
      · rw [List.cons_append, ← hsplit]
      · intro x hx
        rcases List.mem_cons.mp hx with hx | hx
        · rw [hx]
          omega
        · exact h1 x hx
    · rw [if_neg hpc] at hsplit h1 h2 hseed ⊢
      match l₁, hsplit with
      | [], hsplit =>
        have hc : c = cs.foldl (fun b p => if p.2 > b.2 then p else b) c := by
          have := congrArg (fun l => l.head?) hsplit
          simpa using this
        have hcs : cs = l₂ := by
          have := congrArg (fun l => l.tail) hsplit
          simpa using this
        refine ⟨[], p :: l₂, ?_, ?_, ?_⟩
        · rw [← hc, ← hcs]
          rfl
        · intro x hx
          simp at hx
        · intro x hx
          rcases List.mem_cons.mp hx with hx | hx
          · rw [hx, ← hc]
            omega
          · exact h2 x hx
      | q :: l₁', hsplit =>
        have hq : c = q := by
          have := congrArg (fun l => l.head?) hsplit
          simpa using this
        subst hq
        have hcs : cs = l₁' ++ (cs.foldl (fun b p => if p.2 > b.2 then p else b) c) :: l₂ := by
          have := congrArg (fun l => l.tail) hsplit
          simpa using this
        refine ⟨c :: p :: l₁', l₂, ?_, ?_, h2⟩
        · rw [List.cons_append, List.cons_append, ← hcs]
        · intro x hx
          have hcle := h1 c (List.mem_cons_self _ _)
          rcases List.mem_cons.mp hx with hx | hx
          · rw [hx]
            exact hcle
          · rcases List.mem_cons.mp hx with hx | hx
            · rw [hx]
              omega
            · exact h1 x (List.mem_cons_of_mem _ hx)

lemma tallyC_keys_nodup (ks : List String) : ((tallyC ks).map Prod.fst).Nodup := by
  induction ks using tallyC.induct with
  | case1 =>
    rw [tallyC_nil]
    exact List.nodup_nil
  | case2 k ks ih =>
    rw [tallyC_cons, List.map_cons, List.nodup_cons]
    refine ⟨?_, ih⟩
    intro hmem
    rcases List.mem_map.mp hmem with ⟨e, he, hek⟩
    obtain ⟨hin, _⟩ := mem_tallyC_spec _ e.1 e.2 (by
      rw [show (e.1, e.2) = e from rfl]
      exact he)
    rw [hek] at hin
    have h2 := (List.mem_filter.mp hin).2
    simp at h2

lemma tallyC_filter_ne (ks : List String) (P : String) :
    (tallyC ks).filter (fun e => !(e.1 == P))
      = tallyC (ks.filter (fun x => !(x == P))) := by
  induction ks using tallyC.induct with
  | case1 => simp [tallyC_nil]
  | case2 k ks ih =>
    rw [tallyC_cons, List.filter_cons, List.filter_cons]
    by_cases hkP : (k == P) = true
    · rw [show (!(k == P)) = false from by rw [hkP]; rfl]
      simp only [Bool.false_eq_true, if_false]
      rw [ih]
      congr 1
      rw [List.filter_filter]
      apply List.filter_congr
      intro x _
      rw [eq_of_beq hkP]
      cases h : (x == P) <;> simp [h]
    · rw [Bool.not_eq_true] at hkP
      rw [show (!(k == P)) = true from by rw [hkP]; rfl]
      rw [if_pos rfl, if_pos rfl]
      rw [tallyC_cons, ih]
      rw [List.count_filter (by rw [hkP]; rfl)]
      congr 1
      rw [List.filter_filter, List.filter_filter]
      congr 1
      apply List.filter_congr
      intro x _
      rw [Bool.and_comm]

lemma split_unique :
    ∀ (l : List (String × Nat)), (l.map Prod.fst).Nodup →
      ∀ (u v u' v' : List (String × Nat)) (b b' : String × Nat),
        l = u ++ b :: v → l = u' ++ b' :: v' → b.1 = b'.1 →
        u = u' ∧ b = b' ∧ v = v' := by
  intro l
  induction l with
  | nil =>
    intro _ u v u' v' b b' h1 _ _
    exact absurd h1.symm (List.append_ne_nil_of_right_ne_nil _ (List.cons_ne_nil _ _))
  | cons x l ih =>
    intro hnd u v u' v' b b' h1 h2 hbb
    rw [List.map_cons, List.nodup_cons] at hnd
    obtain ⟨hx, hnd'⟩ := hnd
    match u, h1 with
    | [], h1 =>
      obtain ⟨hxb, hlv⟩ := List.cons.injEq .. |>.mp h1
      match u', h2 with
      | [], h2 =>
        obtain ⟨hxb', hlv'⟩ := List.cons.injEq .. |>.mp h2
        exact ⟨rfl, hxb ▸ hxb'.symm ▸ rfl, hlv ▸ hlv'.symm ▸ rfl⟩
      | y :: u'', h2 =>
        rw [List.cons_append] at h2
        obtain ⟨hxy, hl'⟩ := List.cons.injEq .. |>.mp h2
        exfalso
        apply hx
        rw [← hxb] at hbb
        rw [hbb, hl']
        exact List.mem_map_of_mem _ (by simp)
    | y :: u₂, h1 =>
      rw [List.cons_append] at h1
      obtain ⟨hxy, hl⟩ := List.cons.injEq .. |>.mp h1
      match u', h2 with
      | [], h2 =>
        obtain ⟨hxb', hl'⟩ := List.cons.injEq .. |>.mp h2
        exfalso
        apply hx
        rw [← hxb'] at hbb
        rw [← hbb, hl]
        exact List.mem_map_of_mem _ (by simp)
      | y' :: u₃, h2 =>
        rw [List.cons_append] at h2
        obtain ⟨hxy', hl'⟩ := List.cons.injEq .. |>.mp h2
        obtain ⟨e1, e2, e3⟩ := ih hnd' u₂ v u₃ v' b b' hl hl' hbb
        refine ⟨?_, e2, e3⟩
        rw [← hxy, ← hxy', e1]

/-- `a` occurs in `ks` strictly before every occurrence of `b`: some split
has `a` on the left and no `b` on the left. -/
def firstBefore (ks : List String) (a b : String) : Prop :=
  ∃ u v, ks = u ++ v ∧ a ∈ u ∧ b ∉ u

lemma tally_split_of_firstBefore :
    ∀ (ks : List String) (a b : String), a ≠ b → b ∈ ks → firstBefore ks a b →
      ∃ u v w ca cb, tallyC ks = u ++ (a, ca) :: v ++ (b, cb) :: w := by
  intro ks
  induction ks using tallyC.induct with
  | case1 =>
    intro a b _ hb _
    exact absurd hb (List.not_mem_nil _)
  | case2 k ks ih =>
    rintro a b hab hb ⟨u, v, hsplit, hau, hbu⟩
    cases u with
    | nil => exact absurd hau (List.not_mem_nil _)
    | cons q u' =>
      rw [List.cons_append] at hsplit
      obtain ⟨hk1, hk2⟩ := List.cons.injEq .. |>.mp hsplit
      subst hk1
      by_cases hak : a = k
      · subst hak
        have hbne : b ≠ a := fun h => hab h.symm
        have hbks : b ∈ ks := by
          rcases List.mem_cons.mp hb with h | h
          · exact absurd h hbne
          · exact h
        have hbf : b ∈ ks.filter (fun x => !(x == a)) :=
          List.mem_filter.mpr ⟨hbks, by
            rw [show (b == a) = false from beq_eq_false_iff_ne.mpr hbne]
            rfl⟩
        obtain ⟨s, t, hst⟩ := List.append_of_mem (count_mem_tallyC _ b hbf)
        refine ⟨[], s, t, 1 + ks.count a,
          (ks.filter (fun x => !(x == a))).count b, ?_⟩
        rw [tallyC_cons, hst]
        rfl
      · have hau' : a ∈ u' := (List.mem_cons.mp hau).resolve_left hak
        have hbk : b ≠ k := fun h => hbu (h ▸ List.mem_cons_self _ _)
        have hbu' : b ∉ u' := fun h => hbu (List.mem_cons_of_mem _ h)
        have hbks : b ∈ ks := (List.mem_cons.mp hb).resolve_left hbk
        have hfb : firstBefore (ks.filter (fun x => !(x == k))) a b := by
          refine ⟨u'.filter (fun x => !(x == k)),
            v.filter (fun x => !(x == k)), ?_, ?_, ?_⟩
          · rw [hk2, List.filter_append]
          · exact List.mem_filter.mpr ⟨hau', by
              rw [show (a == k) = false from beq_eq_false_iff_ne.mpr hak]
              rfl⟩
          · intro h
            exact hbu' (List.mem_of_mem_filter h)
        have hbf : b ∈ ks.filter (fun x => !(x == k)) :=
          List.mem_filter.mpr ⟨hbks, by
            rw [show (b == k) = false from beq_eq_false_iff_ne.mpr hbk]
            rfl⟩
        obtain ⟨s, t, w, ca, cb, hstw⟩ := ih a b hab hbf hfb
        refine ⟨(k, 1 + ks.count k) :: s, t, w, ca, cb, ?_⟩
        rw [tallyC_cons, hstw]
        rfl

lemma firstBefore_of_tally_split :
    ∀ (ks : List String) (u v : List (String × Nat)) (a e : String × Nat),
      tallyC ks = u ++ a :: v → e ∈ v → firstBefore ks a.1 e.1 := by
  intro ks
  induction ks using tallyC.induct with
  | case1 =>
    intro u v a e h he
    rw [tallyC_nil] at h
    exact absurd h.symm (List.append_ne_nil_of_right_ne_nil _ (List.cons_ne_nil _ _))
  | case2 k ks ih =>
    intro u v a e h he
    rw [tallyC_cons] at h
    cases u with
    | nil =>
      obtain ⟨ha, hv⟩ := List.cons.injEq .. |>.mp h
      have ha1 : a.1 = k := by rw [← ha]
      have hee : e ∈ tallyC (ks.filter (fun x => !(x == k))) := by
        rw [hv]
        exact he
      obtain ⟨hein, _⟩ := mem_tallyC_spec _ e.1 e.2 (by
        rw [show (e.1, e.2) = e from rfl]
        exact hee)
      have hek : e.1 ≠ k := by
        intro hcontra
        have := (List.mem_filter.mp hein).2
        rw [hcontra] at this
        simp at this
      exact ⟨[k], ks, rfl, by rw [ha1]; exact List.mem_singleton.mpr rfl,
        by intro hcon; exact hek (List.mem_singleton.mp hcon)⟩
    | cons b u' =>
      rw [List.cons_append] at h
      obtain ⟨hb, htail⟩ := List.cons.injEq .. |>.mp h
      have hfb := ih u' v a e htail he
      obtain ⟨s, t, hst, has, hes⟩ := hfb
      obtain ⟨s₀, t₀, hks, hs₀, ht₀⟩ := List.filter_eq_append_iff.mp hst
      refine ⟨k :: s₀, t₀, by rw [hks, List.cons_append], ?_, ?_⟩
      · apply List.mem_cons_of_mem
        -- a.1 ∈ s = s₀.filter (≠ k) ⊆ s₀
        rw [← hs₀] at has
        exact List.mem_of_mem_filter has
      · intro hcon
        rcases List.mem_cons.mp hcon with hcon | hcon
        · -- e.1 = k: but e ∈ tallyC of the k-filtered stream
          have hee : e ∈ tallyC (ks.filter (fun x => !(x == k))) := by
            rw [htail]
            exact List.mem_append.mpr (Or.inr (List.mem_cons_of_mem _ he))
          obtain ⟨hein, _⟩ := mem_tallyC_spec _ e.1 e.2 (by
            rw [show (e.1, e.2) = e from rfl]
            exact hee)
          have := (List.mem_filter.mp hein).2
          rw [hcon] at this
          simp at this
        · -- e.1 ∈ s₀: but e.1 passes the k-filter, so e.1 ∈ s — contra hes
          apply hes
          rw [← hs₀]
          apply List.mem_filter.mpr
          refine ⟨hcon, ?_⟩
          -- e.1 ≠ k as above
          have hee : e ∈ tallyC (ks.filter (fun x => !(x == k))) := by
            rw [htail]
            exact List.mem_append.mpr (Or.inr (List.mem_cons_of_mem _ he))
          obtain ⟨hein, _⟩ := mem_tallyC_spec _ e.1 e.2 (by
            rw [show (e.1, e.2) = e from rfl]
            exact hee)
          have h2 := (List.mem_filter.mp hein).2
          exact h2

lemma pickMax_spec {l : List (String × Nat)} {e : String × Nat}
    (h : pickMax l = some e) :
    ∃ l₁ l₂, l = l₁ ++ e :: l₂ ∧ (∀ x ∈ l₁, x.2 < e.2)
      ∧ (∀ x ∈ l₂, x.2 ≤ e.2) := by
  match l with
  | [] => simp [pickMax] at h
  | c :: cs =>
    rw [pickMax] at h
    have he := Option.some.injEq .. |>.mp h
    obtain ⟨l₁, l₂, hs, h1, h2⟩ := pickMax_cons_spec cs c
    rw [he] at hs h1 h2
    exact ⟨l₁, l₂, hs, h1, h2⟩

lemma firstBefore_flatMap (g g' : Feature → List String) (feats : List Feature)
    (P k : String) (hkP : k ≠ P)
    (hext : ∀ f, ∃ ext, g' f = g f ++ ext ∧ ∀ x ∈ ext, x = P)
    (h : firstBefore (feats.flatMap g) P k) :
    firstBefore (feats.flatMap g') P k := by
  induction feats with
  | nil =>
    obtain ⟨u, v, hsplit, hPu, _⟩ := h
    rw [List.flatMap_nil] at hsplit
    cases u with
    | nil => exact absurd hPu (List.not_mem_nil _)
    | cons a u' =>
      rw [List.cons_append] at hsplit
      exact absurd hsplit.symm (List.cons_ne_nil _ _)
  | cons f fs ih =>
    obtain ⟨u, v, hsplit, hPu, hknu⟩ := h
    rw [List.flatMap_cons] at hsplit
    obtain ⟨ext, hgf, hextP⟩ := hext f
    rcases List.append_eq_append_iff.mp hsplit with ⟨a', ha1, ha2⟩ | ⟨c', hc1, hc2⟩
    · -- u = g f ++ a', fs.flatMap g = a' ++ v
      have hknG : k ∉ g f := fun hc =>
        hknu (ha1 ▸ List.mem_append.mpr (Or.inl hc))
      have hkna : k ∉ a' := fun hc =>
        hknu (ha1 ▸ List.mem_append.mpr (Or.inr hc))
      by_cases hPg : P ∈ g f
      · refine ⟨g f, ext ++ fs.flatMap g', ?_, hPg, hknG⟩
        rw [List.flatMap_cons, hgf, List.append_assoc]
      · have hPa : P ∈ a' := by
          rw [ha1] at hPu
          exact (List.mem_append.mp hPu).resolve_left hPg
        obtain ⟨u₂, v₂, h2, hP2, hk2⟩ :=
          ih ⟨a', v, ha2, hPa, hkna⟩
        refine ⟨g' f ++ u₂, v₂, ?_, ?_, ?_⟩
        · rw [List.flatMap_cons, h2, List.append_assoc]
        · exact List.mem_append.mpr (Or.inr hP2)
        · intro hc
          rcases List.mem_append.mp hc with hc | hc
          · rw [hgf] at hc
            rcases List.mem_append.mp hc with hc | hc
            · exact hknG hc
            · exact hkP (hextP k hc)
          · exact hk2 hc
    · -- g f = u ++ c', v = c' ++ fs.flatMap g
      refine ⟨u, c' ++ ext ++ fs.flatMap g', ?_, hPu, hknu⟩
      rw [List.flatMap_cons, hgf, hc1]
      simp [List.append_assoc]

lemma count_flatMap (l : List Feature) (g : Feature → List String) (a : String) :
    (l.flatMap g).count a = (l.map (fun f => (g f).count a)).sum := by
  induction l with
  | nil => rfl
  | cons f fs ih =>
    rw [List.flatMap_cons, List.count_append, List.map_cons, List.sum_cons, ih]

/-- Stability of the frequency-based key pick under the second scan: if the
second stream differs from the first only by interspersed occurrences of
`P` (same non-`P` subsequence, `P` occurring `N` times with `N` bounding
every first-stream count, and `P`-before-`k` order preserved), then the
second pick is `P` or agrees with the first pick. -/
lemma pickMax_tally_stable (ks₀ ks₁ : List String) (P : String) (N : Nat)
    (hfil : ks₁.filter (fun x => !(x == P)) = ks₀.filter (fun x => !(x == P)))
    (hPc : ks₁.count P = N)
    (hNpos : 0 < N)
    (hb : ∀ k, ks₀.count k ≤ N)
    (hord : ∀ k, k ≠ P → firstBefore ks₀ P k → firstBefore ks₁ P k)
    (e₁ : String × Nat) (h₁ : pickMax (tallyC ks₁) = some e₁) :
    e₁.1 = P ∨ pickMax (tallyC ks₀) = some (e₁.1, ks₀.count e₁.1) := by
  by_cases hP1 : e₁.1 = P
  · exact Or.inl hP1
  right
  have hcnt_aux : ∀ (l : List String) k, k ≠ P →
      (l.filter (fun x => !(x == P))).count k = l.count k := by
    intro l k hk
    apply List.count_filter
    show (!(k == P)) = true
    rw [beq_eq_false_iff_ne.mpr hk]
    rfl
  have hcnt_eq : ∀ k, k ≠ P → ks₁.count k = ks₀.count k := by
    intro k hk
    rw [← hcnt_aux ks₁ k hk, hfil, hcnt_aux ks₀ k hk]
  have hmem₁ := pickMax_mem h₁
  obtain ⟨hin₁, hc₁⟩ := mem_tallyC_spec _ e₁.1 e₁.2 (by
    rw [show (e₁.1, e₁.2) = e₁ from rfl]
    exact hmem₁)
  have hPmem : P ∈ ks₁ := List.count_pos_iff.mp (by rw [hPc]; exact hNpos)
  have hPentry : (P, N) ∈ tallyC ks₁ := by
    have := count_mem_tallyC ks₁ P hPmem
    rw [hPc] at this
    exact this
  have hNle : N ≤ e₁.2 := by
    have := pickMax_ge h₁ _ hPentry
    simpa using this
  have hle : e₁.2 ≤ N := by
    rw [hc₁, hcnt_eq e₁.1 hP1]
    exact hb e₁.1
  have he₁2 : e₁.2 = N := Nat.le_antisymm hle hNle
  have hk0 : ks₀.count e₁.1 = N := by
    rw [← hcnt_eq e₁.1 hP1, ← hc₁, he₁2]
  have hmem0 : e₁.1 ∈ ks₀ := List.count_pos_iff.mp (by rw [hk0]; exact hNpos)
  have hE1mem0 : (e₁.1, N) ∈ tallyC ks₀ := by
    have := count_mem_tallyC ks₀ _ hmem0
    rw [hk0] at this
    exact this
  cases h0 : pickMax (tallyC ks₀) with
  | none =>
    rw [pickMax_eq_none] at h0
    rw [h0] at hE1mem0
    exact absurd hE1mem0 (List.not_mem_nil _)
  | some e₀ =>
    have hmem₀ := pickMax_mem h0
    obtain ⟨hin₀, hc₀⟩ := mem_tallyC_spec _ e₀.1 e₀.2 (by
      rw [show (e₀.1, e₀.2) = e₀ from rfl]
      exact hmem₀)
    have he₀2 : e₀.2 = N := by
      refine Nat.le_antisymm ?_ ?_
      · rw [hc₀]
        exact hb e₀.1
      · have := pickMax_ge h0 _ hE1mem0
        simpa using this
    obtain ⟨a₁, a₂, hsplit₁, hlt₁, _hle₁⟩ := pickMax_spec h₁
    obtain ⟨b₁, b₂, hsplit₀, hlt₀, _hle₀⟩ := pickMax_spec h0
    suffices hkey : e₀.1 = e₁.1 by
      have hpair : ((e₁.1 : String), N) = e₀ := by
        rw [← hkey, ← he₀2]
      rw [hk0, hpair]
    by_contra hkey
    have hmem_b₂ : (e₁.1, N) ∈ b₂ := by
      have hmem' := hE1mem0
      rw [hsplit₀] at hmem'
      rcases List.mem_append.mp hmem' with hx | hx
      · have := hlt₀ _ hx
        rw [he₀2] at this
        simp at this
      · rcases List.mem_cons.mp hx with hx | hx
        · exfalso
          apply hkey
          rw [← hx]
        · exact hx
    by_cases he₀P : e₀.1 = P
    · -- the first pick was the `P` entry: `P` precedes `e₁.1` in the first
      -- stream, hence also in the second — contradicting that `e₁` was
      -- picked first there.
      have hfb₀ : firstBefore ks₀ P e₁.1 := by
        have := firstBefore_of_tally_split ks₀ b₁ b₂ e₀ (e₁.1, N) hsplit₀ hmem_b₂
        rw [he₀P] at this
        exact this
      have hfb₁ := hord e₁.1 hP1 hfb₀
      obtain ⟨u, v, w, ca, cb, hsplit'⟩ :=
        tally_split_of_firstBefore ks₁ P e₁.1 (fun h => hP1 h.symm) hin₁ hfb₁
      have hnd := tallyC_keys_nodup ks₁
      have h1' : tallyC ks₁ = (u ++ (P, ca) :: v) ++ (e₁.1, cb) :: w := hsplit'
      have hkeyeq : ((e₁.1, cb) : String × Nat).1 = e₁.1 := rfl
      obtain ⟨hu, _, _⟩ := split_unique _ hnd _ _ _ _ _ _ h1' hsplit₁ hkeyeq
      have hPa₁ : (P, ca) ∈ a₁ := by
        rw [← hu]
        exact List.mem_append.mpr (Or.inr (List.mem_cons_self _ _))
      have hlt := hlt₁ _ hPa₁
      have hca : ca = N := by
        have hmem'' : (P, ca) ∈ tallyC ks₁ := by
          rw [h1']
          exact List.mem_append.mpr (Or.inl
            (List.mem_append.mpr (Or.inr (List.mem_cons_self _ _))))
        obtain ⟨_, hceq⟩ := mem_tallyC_spec _ P ca hmem''
        rw [hceq, hPc]
      rw [hca, he₁2] at hlt
      simp at hlt
    · -- both picks are non-`P` entries of the same filtered tally, each
      -- strictly preceding the other — impossible on a key-nodup list.
      have hpass₀ : (!(e₀.1 == P)) = true := by
        rw [beq_eq_false_iff_ne.mpr he₀P]
        rfl
      have hpass₁ : (!(e₁.1 == P)) = true := by
        rw [beq_eq_false_iff_ne.mpr hP1]
        rfl
      have hLeq : (tallyC ks₁).filter (fun e => !(e.1 == P))
          = (tallyC ks₀).filter (fun e => !(e.1 == P)) := by
        rw [tallyC_filter_ne, tallyC_filter_ne, hfil]
      have he₁pair : ((e₁.1, N) : String × Nat) = e₁ := by
        rw [← he₁2]
      have hE1f : e₁ ∈ b₂.filter (fun e => !(e.1 == P)) := by
        rw [← he₁pair]
        exact List.mem_filter.mpr ⟨hmem_b₂, hpass₁⟩
      obtain ⟨s, t, hY₁⟩ := List.append_of_mem hE1f
      have hndL : (((tallyC ks₀).filter (fun e => !(e.1 == P))).map Prod.fst).Nodup := by
        apply List.Nodup.sublist _ (tallyC_keys_nodup ks₀)
        exact List.Sublist.map _ (List.filter_sublist _)
      have hLsplit1 : (tallyC ks₀).filter (fun e => !(e.1 == P))
          = (b₁.filter (fun e => !(e.1 == P)) ++ e₀ :: s) ++ e₁ :: t := by
        rw [hsplit₀, List.filter_append, List.filter_cons]
        rw [hpass₀]
        rw [if_pos rfl, hY₁]
        simp [List.append_assoc]
      have hLsplit2 : (tallyC ks₀).filter (fun e => !(e.1 == P))
          = a₁.filter (fun e => !(e.1 == P)) ++ e₁ :: a₂.filter (fun e => !(e.1 == P)) := by
        rw [← hLeq, hsplit₁, List.filter_append, List.filter_cons]
        rw [hpass₁]
        rw [if_pos rfl]
      obtain ⟨hXX, _, _⟩ := split_unique _ hndL _ _ _ _ _ _ hLsplit1 hLsplit2 rfl
      have hE0a₁ : e₀ ∈ a₁ := by
        have : e₀ ∈ a₁.filter (fun e => !(e.1 == P)) := by
          rw [← hXX]
          exact List.mem_append.mpr (Or.inr (List.mem_cons_self _ _))
        exact List.mem_of_mem_filter this
      have hlt := hlt₁ _ hE0a₁
      rw [he₀2, he₁2] at hlt
      simp at hlt

/-! ### The enriched feature: keys, values, and the recomputed detection -/

/-- The total enrichment function: the feature `enrichProps` produces when
the status lookup does not crash (with the status spelt via `getD`). -/
def enrichFun (key : String) (d : Dataset) (ps : Feature) : Feature :=
  setProp (setProp (setProp (setProp ps
    "Provinsi" (provNameOf key ps))
    "Status" ((statusStringFor d (provNameOf key ps)).getD ""))
    "info_ikan" (infoStringFor d (provNameOf key ps)))
    "warna" (colorFor (pyUpper ((statusStringFor d (provNameOf key ps)).getD "")))

lemma enrichProps_some_eq (key : String) (d : Dataset) (ps q : Feature)
    (h : enrichProps key d ps = some q) :
    q = enrichFun key d ps
      ∧ statusStringFor d (provNameOf key ps)
          = some ((statusStringFor d (provNameOf key ps)).getD "") := by
  unfold enrichProps at h
  cases hst : statusStringFor d (provNameOf key ps) with
  | none =>
    rw [hst] at h
    exact Option.noConfusion h
  | some st =>
    rw [hst] at h
    have hq := Option.some.injEq .. |>.mp h
    refine ⟨?_, rfl⟩
    rw [← hq]
    unfold enrichFun
    rw [hst]
    rfl

lemma enrichProps_of_some_status (key : String) (d : Dataset) (ps : Feature)
    (st : String) (h : statusStringFor d (provNameOf key ps) = some st) :
    enrichProps key d ps = some (enrichFun key d ps) := by
  rw [enrichProps_eq_some key d ps st h]
  unfold enrichFun
  rw [h]
  rfl

lemma setProp_keys_nodup (ps : Feature) (k v : String)
    (h : (ps.map Prod.fst).Nodup) :
    ((setProp ps k v).map Prod.fst).Nodup := by
  rw [setProp_keys]
  by_cases hany : ps.any (fun p => p.1 == k) = true
  · rw [if_pos hany]
    exact h
  · rw [if_neg hany]
    rw [Bool.not_eq_true] at hany
    rw [List.nodup_append]
    refine ⟨h, List.nodup_singleton _, ?_⟩
    intro a ha hb
    rw [List.mem_singleton] at hb
    rcases List.mem_map.mp ha with ⟨p, hp, hpk⟩
    have hk : ps.any (fun p => p.1 == k) = true :=
      List.any_eq_true.mpr ⟨p, hp, by simp [hpk, hb]⟩
    rw [hany] at hk
    exact Bool.false_ne_true hk

lemma map_set_eq_self :
    ∀ (ps : Feature) (k v : String), (ps.map Prod.fst).Nodup →
      getProp ps k = some v →
      ps.map (fun p => if p.1 == k then (k, v) else p) = ps := by
  intro ps
  induction ps with
  | nil =>
    intro k v _ h
    exact Option.noConfusion h
  | cons p ps ih =>
    intro k v hnd h
    rw [List.map_cons, List.nodup_cons] at hnd
    obtain ⟨hp, hnd'⟩ := hnd
    rw [getProp_cons] at h
    by_cases hpk : (p.1 == k) = true
    · rw [if_pos hpk] at h
      have hv := Option.some.injEq .. |>.mp h
      rw [List.map_cons, if_pos hpk]
      have hpe : ((k : String), v) = p := by
        have : p = (p.1, p.2) := rfl
        rw [this, ← eq_of_beq hpk, hv]
      have hmapid : ∀ q ∈ ps, (if q.1 == k then ((k : String), v) else q) = q := by
        intro q hq
        rw [if_neg]
        intro hqk
        apply hp
        rw [eq_of_beq hpk]
        rw [← eq_of_beq hqk]
        exact List.mem_map_of_mem _ hq
      have hrest : ps.map (fun p => if p.1 == k then ((k : String), v) else p) = ps := by
        rw [List.map_congr_left hmapid, List.map_id']
      rw [hrest, hpe]
    · rw [if_neg hpk] at h
      rw [List.map_cons, if_neg hpk]
      congr 1
      exact ih k v hnd' h

/-- Writing a value a key already holds is a no-op (keys are unique in a
Python dict). -/
lemma setProp_same (ps : Feature) (k v : String)
    (hnd : (ps.map Prod.fst).Nodup) (h : getProp ps k = some v) :
    setProp ps k v = ps := by
  unfold setProp
  have hany : ps.any (fun p => p.1 == k) = true := by
    unfold getProp at h
    cases hf : ps.find? (fun p => p.1 == k) with
    | none =>
      rw [hf] at h
      exact Option.noConfusion h
    | some e =>
      have hmem := List.mem_of_find?_eq_some hf
      have hpass := List.find?_some hf
      exact List.any_eq_true.mpr ⟨e, hmem, hpass⟩
  rw [if_pos hany]
  exact map_set_eq_self ps k v hnd h

lemma tokKeys_setProp_nontoken (ps : Feature) (k v : String)
    (h : isTokenKey k = false) : tokKeys (setProp ps k v) = tokKeys ps := by
  unfold tokKeys
  rw [setProp_keys]
  by_cases hany : ps.any (fun p => p.1 == k) = true
  · rw [if_pos hany]
  · rw [if_neg hany, List.filter_append]
    rw [show List.filter isTokenKey [k] = [] from by
      rw [List.filter_cons, h]
      rfl]
    rw [List.append_nil]

lemma tokKeys_setProp_prov (ps : Feature) (v : String) :
    tokKeys (setProp ps "Provinsi" v)
      = tokKeys ps
        ++ (if ps.any (fun p => p.1 == "Provinsi") then [] else ["Provinsi"]) := by
  unfold tokKeys
  rw [setProp_keys]
  by_cases hany : ps.any (fun p => p.1 == "Provinsi") = true
  · rw [if_pos hany, if_pos hany, List.append_nil]
  · rw [if_neg hany, if_neg hany, List.filter_append]
    congr 1

lemma tokKeys_enrichFun (key : String) (d : Dataset) (f : Feature) :
    tokKeys (enrichFun key d f)
      = tokKeys f
        ++ (if f.any (fun p => p.1 == "Provinsi") then [] else ["Provinsi"]) := by
  unfold enrichFun
  rw [tokKeys_setProp_nontoken _ _ _ (by decide),
      tokKeys_setProp_nontoken _ _ _ (by decide),
      tokKeys_setProp_nontoken _ _ _ (by decide),
      tokKeys_setProp_prov]

lemma enrichFun_keys_nodup (key : String) (d : Dataset) (f : Feature)
    (h : (f.map Prod.fst).Nodup) :
    ((enrichFun key d f).map Prod.fst).Nodup := by
  unfold enrichFun
  exact setProp_keys_nodup _ _ _ (setProp_keys_nodup _ _ _
    (setProp_keys_nodup _ _ _ (setProp_keys_nodup _ _ _ h)))

lemma getProp_enrichFun_P (key : String) (d : Dataset) (f : Feature) :
    getProp (enrichFun key d f) "Provinsi" = some (provNameOf key f) := by
  unfold enrichFun
  rw [getProp_setProp, if_neg (by decide), getProp_setProp, if_neg (by decide),
      getProp_setProp, if_neg (by decide), getProp_setProp, if_pos rfl]

lemma getProp_enrichFun_S (key : String) (d : Dataset) (f : Feature) :
    getProp (enrichFun key d f) "Status"
      = some ((statusStringFor d (provNameOf key f)).getD "") := by
  unfold enrichFun
  rw [getProp_setProp, if_neg (by decide), getProp_setProp, if_neg (by decide),
      getProp_setProp, if_pos rfl]

lemma getProp_enrichFun_I (key : String) (d : Dataset) (f : Feature) :
    getProp (enrichFun key d f) "info_ikan"
      = some (infoStringFor d (provNameOf key f)) := by
  unfold enrichFun
  rw [getProp_setProp, if_neg (by decide), getProp_setProp, if_pos rfl]

lemma getProp_enrichFun_W (key : String) (d : Dataset) (f : Feature) :
    getProp (enrichFun key d f) "warna"
      = some (colorFor (pyUpper
          ((statusStringFor d (provNameOf key f)).getD ""))) := by
  unfold enrichFun
  rw [getProp_setProp, if_pos rfl]

lemma getProp_enrichFun_other (key : String) (d : Dataset) (f : Feature)
    (k : String) (h1 : k ≠ "Provinsi") (h2 : k ≠ "Status")
    (h3 : k ≠ "info_ikan") (h4 : k ≠ "warna") :
    getProp (enrichFun key d f) k = getProp f k := by
  unfold enrichFun
  rw [getProp_setProp, if_neg h4, getProp_setProp, if_neg h3,
      getProp_setProp, if_neg h2, getProp_setProp, if_neg h1]

lemma flatMap_congr_left {α β : Type} (l : List α) (g g' : α → List β)
    (h : ∀ a ∈ l, g a = g' a) : l.flatMap g = l.flatMap g' := by
  induction l with
  | nil => rfl
  | cons a l ih =>
    rw [List.flatMap_cons, List.flatMap_cons, h a (List.mem_cons_self _ _),
        ih (fun b hb => h b (List.mem_cons_of_mem _ hb))]

lemma sum_map_eq_length {α : Type} (l : List α) (g : α → Nat)
    (h : ∀ a ∈ l, g a = 1) : (l.map g).sum = l.length := by
  induction l with
  | nil => rfl
  | cons a l ih =>
    rw [List.map_cons, List.sum_cons, List.length_cons,
        h a (List.mem_cons_self _ _),
        ih (fun b hb => h b (List.mem_cons_of_mem _ hb))]
    omega

lemma sum_map_le_length {α : Type} (l : List α) (g : α → Nat)
    (h : ∀ a ∈ l, g a ≤ 1) : (l.map g).sum ≤ l.length := by
  induction l with
  | nil => exact Nat.le_refl 0
  | cons a l ih =>
    rw [List.map_cons, List.sum_cons, List.length_cons]
    have h1 := h a (List.mem_cons_self _ _)
    have h2 := ih (fun b hb => h b (List.mem_cons_of_mem _ hb))
    omega

lemma count_tokKeys_le_keys (f : Feature) (k : String) :
    (tokKeys f).count k ≤ (f.map Prod.fst).count k := by
  unfold tokKeys
  exact (List.filter_sublist _).count_le _

lemma count_tokKeys_le_one (f : Feature)
    (hnd : (f.map Prod.fst).Nodup) (k : String) :
    (tokKeys f).count k ≤ 1 :=
  Nat.le_trans (count_tokKeys_le_keys f k)
    (List.nodup_iff_count_le_one.mp hnd k)

lemma count_P_tokKeys_enrichFun (key : String) (d : Dataset) (f : Feature)
    (hnd : (f.map Prod.fst).Nodup) :
    (tokKeys (enrichFun key d f)).count "Provinsi" = 1 := by
  rw [tokKeys_enrichFun, List.count_append]
  by_cases hany : f.any (fun p => p.1 == "Provinsi") = true
  · rw [if_pos hany]
    obtain ⟨p, hp, hpk⟩ := List.any_eq_true.mp hany
    have hmem : "Provinsi" ∈ f.map Prod.fst :=
      List.mem_map.mpr ⟨p, hp, eq_of_beq hpk⟩
    have h1 : (tokKeys f).count "Provinsi"
        = ((f.map Prod.fst).filter isTokenKey).count "Provinsi" := rfl
    have h2 : ((f.map Prod.fst).filter isTokenKey).count "Provinsi"
        = (f.map Prod.fst).count "Provinsi" :=
      List.count_filter (by decide)
    have h3 : (f.map Prod.fst).count "Provinsi" = 1 := by
      have hle := List.nodup_iff_count_le_one.mp hnd "Provinsi"
      have hge := List.count_pos_iff.mpr hmem
      omega
    rw [h1, h2, h3]
    rfl
  · rw [if_neg hany]
    rw [Bool.not_eq_true] at hany
    have h0 : (f.map Prod.fst).count "Provinsi" = 0 := by
      rw [List.count_eq_zero]
      intro hmem
      rcases List.mem_map.mp hmem with ⟨p, hp, hpk⟩
      have : f.any (fun p => p.1 == "Provinsi") = true :=
        List.any_eq_true.mpr ⟨p, hp, by simp [hpk]⟩
      rw [hany] at this
      exact Bool.false_ne_true this
    have h1 := count_tokKeys_le_keys f "Provinsi"
    rw [h0] at h1
    have h2 : (tokKeys f).count "Provinsi" = 0 := Nat.le_zero.mp h1
    rw [h2]
    rfl

lemma keyStream_map_enrich (key : String) (d : Dataset) (feats : List Feature) :
    keyStream (feats.map (enrichFun key d))
      = feats.flatMap (fun f => tokKeys (enrichFun key d f)) := by
  unfold keyStream
  rw [List.flatMap_map]

lemma keyStream_enrich_filter (key : String) (d : Dataset)
    (feats : List Feature) :
    (keyStream (feats.map (enrichFun key d))).filter
        (fun x => !(x == "Provinsi"))
      = (keyStream feats).filter (fun x => !(x == "Provinsi")) := by
  rw [keyStream_map_enrich]
  unfold keyStream
  rw [List.filter_flatMap, List.filter_flatMap]
  apply flatMap_congr_left
  intro f _
  show (tokKeys (enrichFun key d f)).filter (fun x => !(x == "Provinsi"))
    = (tokKeys f).filter (fun x => !(x == "Provinsi"))
  rw [tokKeys_enrichFun, List.filter_append]
  by_cases hany : f.any (fun p => p.1 == "Provinsi") = true
  · rw [if_pos hany]
    rw [List.filter_nil, List.append_nil]
  · rw [if_neg hany]
    rw [show List.filter (fun x => !(x == "Provinsi")) ["Provinsi"] = []
      from by decide]
    rw [List.append_nil]

lemma keyStream_enrich_count_P (key : String) (d : Dataset)
    (feats : List Feature) (hnd : ∀ f ∈ feats, (f.map Prod.fst).Nodup) :
    (keyStream (feats.map (enrichFun key d))).count "Provinsi"
      = feats.length := by
  rw [keyStream_map_enrich, count_flatMap]
  exact sum_map_eq_length _ _
    (fun f hf => count_P_tokKeys_enrichFun key d f (hnd f hf))

lemma keyStream_count_le_length (feats : List Feature)
    (hnd : ∀ f ∈ feats, (f.map Prod.fst).Nodup) (k : String) :
    (keyStream feats).count k ≤ feats.length := by
  unfold keyStream
  rw [count_flatMap]
  exact sum_map_le_length _ _
    (fun f hf => count_tokKeys_le_one f (hnd f hf) k)

lemma tokKeys_enrichFun_ext (key : String) (d : Dataset) (f : Feature) :
    ∃ ext, tokKeys (enrichFun key d f) = tokKeys f ++ ext
      ∧ ∀ x ∈ ext, x = "Provinsi" := by
  refine ⟨if f.any (fun p => p.1 == "Provinsi") then [] else ["Provinsi"],
    tokKeys_enrichFun key d f, ?_⟩
  intro x hx
  by_cases hany : f.any (fun p => p.1 == "Provinsi") = true
  · rw [if_pos hany] at hx
    exact absurd hx (List.not_mem_nil _)
  · rw [if_neg hany] at hx
    exact List.mem_singleton.mp hx

/-- The uppercased name read back from an enriched feature is the name the
first enrichment computed, whether the second scan uses the same detected
key or the fallback key `"Provinsi"`. -/
lemma provNameOf_enrichFun (key₁ key₂ : String) (d : Dataset) (f : Feature)
    (hkey : key₂ = key₁ ∨ key₂ = "Provinsi")
    (htok : key₁ = "Provinsi" ∨ isTokenKey key₁ = true) :
    provNameOf key₂ (enrichFun key₁ d f) = provNameOf key₁ f := by
  have hP := getProp_enrichFun_P key₁ d f
  have hidem : pyUpper (provNameOf key₁ f) = provNameOf key₁ f := by
    unfold provNameOf
    exact pyUpper_idem _
  by_cases hk2P : key₂ = "Provinsi"
  · subst hk2P
    unfold provNameOf
    rw [hP, Option.getD_some]
    exact hidem
  · have hk21 : key₂ = key₁ := hkey.resolve_right hk2P
    subst hk21
    have htok' : isTokenKey key₂ = true := htok.resolve_left hk2P
    have h2 : key₂ ≠ "Status" := by
      intro h
      rw [h] at htok'
      exact absurd htok' (by decide)
    have h3 : key₂ ≠ "info_ikan" := by
      intro h
      rw [h] at htok'
      exact absurd htok' (by decide)
    have h4 : key₂ ≠ "warna" := by
      intro h
      rw [h] at htok'
      exact absurd htok' (by decide)
    have hother := getProp_enrichFun_other key₂ d f key₂ hk2P h2 h3 h4
    unfold provNameOf
    rw [hother, hP, Option.getD_some]
    cases hgf : getProp f key₂ with
    | some x => simp only [Option.getD_some]
    | none =>
      rw [Option.getD_none]
      show pyUpper (provNameOf key₂ f) = _
      rw [hidem]
      unfold provNameOf
      rw [hgf, Option.getD_none]

/-- Re-enriching an already-enriched feature writes back exactly the values
it already holds. -/
lemma enrichProps_enrichFun_self (key₁ key₂ : String) (d : Dataset)
    (f : Feature) (hnd : (f.map Prod.fst).Nodup)
    (hpn : provNameOf key₂ (enrichFun key₁ d f) = provNameOf key₁ f)
    (st : String) (hst : statusStringFor d (provNameOf key₁ f) = some st) :
    enrichProps key₂ d (enrichFun key₁ d f) = some (enrichFun key₁ d f) := by
  have hndq := enrichFun_keys_nodup key₁ d f hnd
  have hq := enrichProps_eq_some key₂ d (enrichFun key₁ d f) st
    (by rw [hpn]; exact hst)
  rw [hq]
  congr 1
  rw [hpn]
  have hPval : getProp (enrichFun key₁ d f) "Provinsi"
      = some (provNameOf key₁ f) := getProp_enrichFun_P key₁ d f
  have hSval : getProp (enrichFun key₁ d f) "Status" = some st := by
    rw [getProp_enrichFun_S, hst, Option.getD_some]
  have hIval : getProp (enrichFun key₁ d f) "info_ikan"
      = some (infoStringFor d (provNameOf key₁ f)) := getProp_enrichFun_I key₁ d f
  have hWval : getProp (enrichFun key₁ d f) "warna"
      = some (colorFor (pyUpper st)) := by
    rw [getProp_enrichFun_W, hst, Option.getD_some]
  rw [setProp_same _ _ _ hndq hPval]
  rw [setProp_same _ _ _ hndq hSval]
  rw [setProp_same _ _ _ hndq hIval]
  exact setProp_same _ _ _ hndq hWval

lemma mapM_some_of_forall {α β : Type} (g : α → Option β) (E : α → β) :
    ∀ (l : List α), (∀ a ∈ l, g a = some (E a)) → l.mapM g = some (l.map E) := by
  intro l
  induction l with
  | nil => intro _; rfl
  | cons a l ih =>
    intro h
    rw [List.mapM_cons, h a (List.mem_cons_self _ _),
        ih (fun b hb => h b (List.mem_cons_of_mem _ hb))]
    rfl

lemma mapM_some_inv {α β : Type} (g : α → Option β) (E : α → β)
    (hE : ∀ a q, g a = some q → q = E a) :
    ∀ (l : List α) (l' : List β), l.mapM g = some l' →
      l' = l.map E ∧ ∀ a ∈ l, g a = some (E a) := by
  intro l
  induction l with
  | nil =>
    intro l' h
    have h' : (some [] : Option (List β)) = some l' := h
    have := Option.some.injEq .. |>.mp h'
    exact ⟨this.symm, fun a ha => absurd ha (List.not_mem_nil _)⟩
  | cons a l ih =>
    intro l' h
    rw [List.mapM_cons] at h
    cases hga : g a with
    | none =>
      rw [hga] at h
      exact Option.noConfusion h
    | some b =>
      rw [hga] at h
      cases hms : l.mapM g with
      | none =>
        rw [hms] at h
        exact Option.noConfusion h
      | some bs =>
        rw [hms] at h
        have h' : (some (b :: bs) : Option (List β)) = some l' := h
        have hl' := Option.some.injEq .. |>.mp h'
        obtain ⟨h1, h2⟩ := ih bs hms
        have hb := hE a b hga
        refine ⟨?_, ?_⟩
        · rw [← hl', List.map_cons, ← h1, ← hb]
        · intro c hc
          rcases List.mem_cons.mp hc with hc | hc
          · subst hc
            rw [hga, hb]
          · exact h2 c hc

lemma mapM_id_of_forall {α : Type} (g : α → Option α) :
    ∀ (l : List α), (∀ a ∈ l, g a = some a) → l.mapM g = some l := by
  intro l
  induction l with
  | nil => intro _; rfl
  | cons a l ih =>
    intro h
    rw [List.mapM_cons, h a (List.mem_cons_self _ _),
        ih (fun b hb => h b (List.mem_cons_of_mem _ hb))]
    rfl

/-- The key the endpoint ends up using is the fallback `"Provinsi"` or a
token key of the scanned stream. -/
lemma detect_key_token (feats : List Feature) (key₁ : String)
    (hk : (detect_prov_property_key feats).getD "Provinsi" = key₁) :
    key₁ = "Provinsi" ∨ isTokenKey key₁ = true := by
  unfold detect_prov_property_key at hk
  cases hpm : pickMax (candidatesOf feats) with
  | none =>
    rw [hpm] at hk
    exact Or.inl hk.symm
  | some e =>
    rw [hpm] at hk
    have he1 : e.1 = key₁ := hk
    right
    rw [← he1]
    have hmem := pickMax_mem hpm
    rw [candidatesOf_eq_tally] at hmem
    obtain ⟨hin, _⟩ := mem_tallyC_spec _ e.1 e.2 (by
      rw [show (e.1, e.2) = e from rfl]
      exact hmem)
    exact ((mem_keyStream feats e.1).mp hin).1

/-- The heart of the idempotence claim: after a full enrichment pass, a
second pass — with the key re-detected over the mutated features — maps
every feature to itself. -/
lemma enrich_idempotent (key₁ : String) (d : Dataset)
    (feats feats₁ : List Feature)
    (hnd : ∀ f ∈ feats, (f.map Prod.fst).Nodup)
    (hne : feats ≠ [])
    (hk₁ : (detect_prov_property_key feats).getD "Provinsi" = key₁)
    (hE : enrichAll key₁ d feats = some feats₁) :
    enrichAll ((detect_prov_property_key feats₁).getD "Provinsi") d feats₁
      = some feats₁ := by
  have hEfun : ∀ f q, enrichProps key₁ d f = some q → q = enrichFun key₁ d f :=
    fun f q h => (enrichProps_some_eq key₁ d f q h).1
  obtain ⟨hmap, hall⟩ := mapM_some_inv (enrichProps key₁ d) (enrichFun key₁ d)
    hEfun feats feats₁ hE
  have hsome : ∀ f ∈ feats, statusStringFor d (provNameOf key₁ f)
      = some ((statusStringFor d (provNameOf key₁ f)).getD "") := by
    intro f hf
    exact (enrichProps_some_eq key₁ d f _ (hall f hf)).2
  subst hmap
  have htok := detect_key_token feats key₁ hk₁
  have hfil := keyStream_enrich_filter key₁ d feats
  have hPc := keyStream_enrich_count_P key₁ d feats hnd
  have hNpos : 0 < feats.length := List.length_pos.mpr hne
  have hb : ∀ k, (keyStream feats).count k ≤ feats.length :=
    keyStream_count_le_length feats hnd
  have hord : ∀ k, k ≠ "Provinsi" →
      firstBefore (keyStream feats) "Provinsi" k →
      firstBefore (keyStream (feats.map (enrichFun key₁ d))) "Provinsi" k := by
    intro k hk hfb
    have hext : ∀ f, ∃ ext, tokKeys (enrichFun key₁ d f) = tokKeys f ++ ext
        ∧ ∀ x ∈ ext, x = "Provinsi" := tokKeys_enrichFun_ext key₁ d
    have hres := firstBefore_flatMap tokKeys
      (fun f => tokKeys (enrichFun key₁ d f)) feats "Provinsi" k hk hext hfb
    rw [keyStream_map_enrich]
    exact hres
  have hPmem₁ : "Provinsi" ∈ keyStream (feats.map (enrichFun key₁ d)) := by
    apply List.count_pos_iff.mp
    rw [hPc]
    exact hNpos
  cases hpm₁ : pickMax (tallyC (keyStream (feats.map (enrichFun key₁ d)))) with
  | none =>
    exfalso
    rw [pickMax_eq_none] at hpm₁
    cases hks : keyStream (feats.map (enrichFun key₁ d)) with
    | nil =>
      rw [hks] at hPmem₁
      exact absurd hPmem₁ (List.not_mem_nil _)
    | cons a l =>
      rw [hks, tallyC_cons] at hpm₁
      exact List.cons_ne_nil _ _ hpm₁
  | some e₁ =>
    have hstab := pickMax_tally_stable (keyStream feats)
      (keyStream (feats.map (enrichFun key₁ d))) "Provinsi" feats.length
      hfil hPc hNpos hb hord e₁ hpm₁
    have hk₂ : (detect_prov_property_key
        (feats.map (enrichFun key₁ d))).getD "Provinsi" = e₁.1 := by
      unfold detect_prov_property_key
      rw [candidatesOf_eq_tally, hpm₁]
      rfl
    have hkey : e₁.1 = key₁ ∨ e₁.1 = "Provinsi" := by
      rcases hstab with h | h
      · exact Or.inr h
      · left
        have hdet : detect_prov_property_key feats = some e₁.1 := by
          unfold detect_prov_property_key
          rw [candidatesOf_eq_tally, h]
          rfl
        rw [hdet] at hk₁
        exact hk₁
    rw [hk₂]
    unfold enrichAll
    apply mapM_id_of_forall
    intro q hq
    rcases List.mem_map.mp hq with ⟨f, hf, hfq⟩
    rw [← hfq]
    exact enrichProps_enrichFun_self key₁ e₁.1 d f (hnd f hf)
      (provNameOf_enrichFun key₁ e₁.1 d f hkey htok)
      ((statusStringFor d (provNameOf key₁ f)).getD "") (hsome f hf)

/-- Unfolding of `api_peta_kepatuhan` into its three request paths. -/
lemma api_peta_cases (df : Dataset) (tahun provinsi ikan : Option String)
    (feats : List Feature) :
    api_peta_kepatuhan df tahun provinsi ikan feats =
      if df.isEmpty || feats.isEmpty then
        some (PetaResp.message "<p>Data peta atau dataset tidak tersedia.</p>",
          feats)
      else if (applyIkanFilter (applyProvinsiFilter
          (applyTahunFilter df tahun) provinsi) ikan).isEmpty then
        some (PetaResp.message "<p>Tidak ada data untuk filter ini.</p>", feats)
      else
        match enrichAll ((detect_prov_property_key feats).getD "Provinsi")
            (applyIkanFilter (applyProvinsiFilter
              (applyTahunFilter df tahun) provinsi) ikan) feats with
        | none => none
        | some feats₂ => some (PetaResp.rendered feats₂, feats₂) := rfl

/-- **C9.**  Repeating the same filtered query leaves the output unchanged.
The JSON endpoints are pure functions of the dataset and the filters, so
repetition is trivially identical there; the one stateful endpoint is
`/api/peta-kepatuhan`, whose per-request in-place enrichment mutates the
shared boundary features.  Whenever a map request returns a response `resp`
leaving the shared features in state `s`, the identical request issued
against state `s` returns the same response `resp` and leaves the state at
`s`: the re-detected property key is the previously detected key or the
injected `"Provinsi"` key, and either way the second enrichment writes back
the values already present.  (Feature property maps are Python dicts, so
their keys are unique — the `hnd` hypothesis.) -/
theorem peta_idempotent (df : Dataset) (tahun provinsi ikan : Option String)
    (feats : List Feature)
    (hnd : ∀ f ∈ feats, (f.map Prod.fst).Nodup)
    (resp : PetaResp) (s : List Feature)
    (h : api_peta_kepatuhan df tahun provinsi ikan feats = some (resp, s)) :
    api_peta_kepatuhan df tahun provinsi ikan s = some (resp, s) := by
  rw [api_peta_cases] at h
  rw [api_peta_cases]
  by_cases hg1 : (df.isEmpty || feats.isEmpty) = true
  · rw [if_pos hg1] at h
    have h' := Option.some.injEq .. |>.mp h
    obtain ⟨hresp, hs⟩ := Prod.mk.injEq .. |>.mp h'
    rw [← hs, ← hresp]
    rw [if_pos hg1]
  · rw [if_neg hg1] at h
    have hd : df.isEmpty = false := by
      cases hde : df.isEmpty
      · rfl
      · exact absurd (by rw [hde]; rfl) hg1
    have hf : feats.isEmpty = false := by
      cases hfe : feats.isEmpty
      · rfl
      · exact absurd (by rw [hfe, Bool.or_true]) hg1
    have hne : feats ≠ [] := by
      intro hcon
      rw [hcon] at hf
      simp at hf
    by_cases hg2 : (applyIkanFilter (applyProvinsiFilter
        (applyTahunFilter df tahun) provinsi) ikan).isEmpty = true
    · rw [if_pos hg2] at h
      have h' := Option.some.injEq .. |>.mp h
      obtain ⟨hresp, hs⟩ := Prod.mk.injEq .. |>.mp h'
      rw [← hs, ← hresp]
      rw [if_neg hg1, if_pos hg2]
    · rw [if_neg hg2] at h
      cases hE : enrichAll ((detect_prov_property_key feats).getD "Provinsi")
          (applyIkanFilter (applyProvinsiFilter
            (applyTahunFilter df tahun) provinsi) ikan) feats with
      | none =>
        rw [hE] at h
        exact Option.noConfusion h
      | some feats₁ =>
        rw [hE] at h
        have h' := Option.some.injEq .. |>.mp h
        obtain ⟨hresp, hs⟩ := Prod.mk.injEq .. |>.mp h'
        rw [← hs, ← hresp]
        have hE₂ := enrich_idempotent
          ((detect_prov_property_key feats).getD "Provinsi")
          (applyIkanFilter (applyProvinsiFilter
            (applyTahunFilter df tahun) provinsi) ikan)
          feats feats₁ hnd hne rfl hE
        have hEfun : ∀ f q, enrichProps
            ((detect_prov_property_key feats).getD "Provinsi")
            (applyIkanFilter (applyProvinsiFilter
              (applyTahunFilter df tahun) provinsi) ikan) f = some q →
            q = enrichFun ((detect_prov_property_key feats).getD "Provinsi")
              (applyIkanFilter (applyProvinsiFilter
                (applyTahunFilter df tahun) provinsi) ikan) f :=
          fun f q hq => (enrichProps_some_eq _ _ f q hq).1
        obtain ⟨hmap, _⟩ := mapM_some_inv _ _ hEfun feats feats₁ hE
        have hf₁ : feats₁.isEmpty = false := by
          rw [hmap]
          cases feats with
          | nil => exact absurd rfl hne
          | cons a l => rfl
        have hg1' : ¬((df.isEmpty || feats₁.isEmpty) = true) := by
          intro hcon
          rw [hd, hf₁] at hcon
          exact absurd hcon (by decide)
        rw [if_neg hg1', if_neg hg2, hE₂]

/-- The dataset for the C9 witness. -/
def dfC9w : Dataset :=
  [ { tahun := 2020, provinsi := "ACEH", kelompokIkan := "Tuna",
      catchTon := 100, tpC := 10, tpE := 10, status := some "OVERFISHING" } ]

/-- The boundary features for the C9 witness. -/
def featsC9w : List Feature := [[("name", "aceh")]]

/-- Witness for `peta_idempotent`: a request whose year filter empties the
dataset returns the no-data message, and the repeated identical request
returns the same response and state. -/
theorem peta_idempotent_witness :
    (∀ f ∈ featsC9w, (f.map Prod.fst).Nodup) ∧
    api_peta_kepatuhan dfC9w (some "1999") none none featsC9w
      = some (PetaResp.message "<p>Tidak ada data untuk filter ini.</p>",
          featsC9w) :=
  ⟨by decide,
   peta_idempotent dfC9w (some "1999") none none featsC9w (by decide)
     (PetaResp.message "<p>Tidak ada data untuk filter ini.</p>") featsC9w
     (by decide)⟩

end MarineSustain
